import Mathlib

/-!
Verification of the CPU software-rasterizer core (`renderer.rs`).

The floating-point (`f32`) arithmetic of the source is embedded as exact
rational arithmetic (`ℚ`); machine integers (`i32`/`u32`) are embedded as `ℤ`
with explicit wrapping where the source casts between them.  Loops of the
source (`loop`, `while`) are embedded as fuel-indexed recursions returning
`Option` (`none` = the fuel bound was insufficient), so that termination of a
loop is a provable statement rather than a modelling assumption.
-/

/-- `math::Vec2`: a 2-d point with rational coordinates. -/
abbrev Vec2 : Type := ℚ × ℚ

/-- Rust `as i32` on a real value in `i32` range: truncation toward zero. -/
def rustTrunc (q : ℚ) : ℤ := if 0 ≤ q then ⌊q⌋ else ⌈q⌉

/-- Rust `as u32` on an `i32` value: wrap modulo `2^32`. -/
def i32AsU32 (z : ℤ) : ℤ := z % 4294967296

/-! ## Cohen–Sutherland line clipping (`mod cohen_sutherland`) -/

/-- X part of `compute_outcode`: `LEFT = 1` if `p.x < min.x`,
else `RIGHT = 2` if `p.x > max.x`, else `INSIDE = 0`. -/
def ocx (p mn mx : Vec2) : ℕ :=
  if p.1 < mn.1 then 1 else if p.1 > mx.1 then 2 else 0

/-- Y part of `compute_outcode`: `BOTTOM = 4` if `p.y < min.y`,
else `TOP = 8` if `p.y > max.y`, else `INSIDE = 0`. -/
def ocy (p mn mx : Vec2) : ℕ :=
  if p.2 < mn.2 then 4 else if p.2 > mx.2 then 8 else 0

/-- `cohen_sutherland::compute_outcode`: bitwise or of the two parts. -/
def compute_outcode (p mn mx : Vec2) : ℕ :=
  ocx p mn mx ||| ocy p mn mx

/-- The intersection point `p` computed by one iteration of the clipping loop
(lines 217–237 of `renderer.rs`): the branch is selected by the bits of the
numerically larger outcode (TOP, then BOTTOM, then RIGHT, then LEFT); `p1` is
the ORIGINAL first endpoint while `pt1`, `pt2` are the current working points.
The final `(0, 0)` is the unreached `Vec2::zero()` initialisation. -/
def clipReplacement (p1 mn mx pt1 pt2 : Vec2) : Vec2 :=
  let o1 := compute_outcode pt1 mn mx
  let o2 := compute_outcode pt2 mn mx
  let oc := if o1 < o2 then o2 else o1
  if oc &&& 8 ≠ 0 then
    (p1.1 + (pt2.1 - pt1.1) * (mx.2 - pt1.2) / (pt2.2 - pt1.2), mx.2)
  else if oc &&& 4 ≠ 0 then
    (p1.1 + (pt2.1 - pt1.1) * (mn.2 - pt1.2) / (pt2.2 - pt1.2), mn.2)
  else if oc &&& 2 ≠ 0 then
    (mx.1, pt1.2 + (pt2.2 - pt1.2) * (mx.1 - pt1.1) / (pt2.1 - pt1.1))
  else if oc &&& 1 ≠ 0 then
    (mn.1, pt1.2 + (pt2.2 - pt1.2) * (mn.1 - pt1.1) / (pt2.1 - pt1.1))
  else (0, 0)

/-- One iteration of the clipping loop: compute the replacement point and
store it into `pt1` if the selected outcode is `outcode1`, else into `pt2`
(lines 239–245 of `renderer.rs`). -/
def clipStep (p1 mn mx pt1 pt2 : Vec2) : Vec2 × Vec2 :=
  let o1 := compute_outcode pt1 mn mx
  let o2 := compute_outcode pt2 mn mx
  let oc := if o1 < o2 then o2 else o1
  let p := clipReplacement p1 mn mx pt1 pt2
  if oc = o1 then (p, pt2) else (pt1, p)

/-- The `loop` of `cohen_sutherland_line_clip`, fuel-indexed.
`some none` = trivially rejected (`return None`), `some (some (pt1, pt2))` =
accepted, `none` = the fuel bound was exhausted before the loop exited. -/
def clipLoop (p1 mn mx : Vec2) : ℕ → Vec2 → Vec2 → Option (Option (Vec2 × Vec2))
  | 0, pt1, pt2 =>
    if compute_outcode pt1 mn mx &&& compute_outcode pt2 mn mx ≠ 0 then some none
    else if compute_outcode pt1 mn mx ||| compute_outcode pt2 mn mx = 0 then
      some (some (pt1, pt2))
    else none
  | n + 1, pt1, pt2 =>
    if compute_outcode pt1 mn mx &&& compute_outcode pt2 mn mx ≠ 0 then some none
    else if compute_outcode pt1 mn mx ||| compute_outcode pt2 mn mx = 0 then
      some (some (pt1, pt2))
    else
      clipLoop p1 mn mx n (clipStep p1 mn mx pt1 pt2).1 (clipStep p1 mn mx pt1 pt2).2

/-- `cohen_sutherland::cohen_sutherland_line_clip`.  Fuel 6 is proved
sufficient for every rectangle with `min ≤ max` (see the termination
theorem below). -/
def cohen_sutherland_line_clip (p1 p2 mn mx : Vec2) : Option (Vec2 × Vec2) :=
  (clipLoop p1 mn mx 6 p1 p2).join

/-- Spec-variant of `clipReplacement` in which the intersection formulas use
the deltas of the ORIGINAL unclipped endpoints `p1`, `p2` (the spec's words:
"Division uses the original unclipped `p1`/`p2` deltas for the intersection
formulas even though the endpoint used for outcode is the current one").
Written only to be compared with the source's `clipReplacement`. -/
def clipReplacementOrigDeltas (p1 p2 mn mx pt1 pt2 : Vec2) : Vec2 :=
  let o1 := compute_outcode pt1 mn mx
  let o2 := compute_outcode pt2 mn mx
  let oc := if o1 < o2 then o2 else o1
  if oc &&& 8 ≠ 0 then
    (p1.1 + (p2.1 - p1.1) * (mx.2 - pt1.2) / (p2.2 - p1.2), mx.2)
  else if oc &&& 4 ≠ 0 then
    (p1.1 + (p2.1 - p1.1) * (mn.2 - pt1.2) / (p2.2 - p1.2), mn.2)
  else if oc &&& 2 ≠ 0 then
    (mx.1, pt1.2 + (p2.2 - p1.2) * (mx.1 - pt1.1) / (p2.1 - p1.1))
  else if oc &&& 1 ≠ 0 then
    (mn.1, pt1.2 + (p2.2 - p1.2) * (mn.1 - pt1.1) / (p2.1 - p1.1))
  else (0, 0)

/-- One loop iteration of the spec-variant with original deltas. -/
def clipStepOrigDeltas (p1 p2 mn mx pt1 pt2 : Vec2) : Vec2 × Vec2 :=
  let o1 := compute_outcode pt1 mn mx
  let o2 := compute_outcode pt2 mn mx
  let oc := if o1 < o2 then o2 else o1
  let p := clipReplacementOrigDeltas p1 p2 mn mx pt1 pt2
  if oc = o1 then (p, pt2) else (pt1, p)

/-- The clipping loop of the spec-variant with original deltas. -/
def clipLoopOrigDeltas (p1 p2 mn mx : Vec2) :
    ℕ → Vec2 → Vec2 → Option (Option (Vec2 × Vec2))
  | 0, pt1, pt2 =>
    if compute_outcode pt1 mn mx &&& compute_outcode pt2 mn mx ≠ 0 then some none
    else if compute_outcode pt1 mn mx ||| compute_outcode pt2 mn mx = 0 then
      some (some (pt1, pt2))
    else none
  | n + 1, pt1, pt2 =>
    if compute_outcode pt1 mn mx &&& compute_outcode pt2 mn mx ≠ 0 then some none
    else if compute_outcode pt1 mn mx ||| compute_outcode pt2 mn mx = 0 then
      some (some (pt1, pt2))
    else
      clipLoopOrigDeltas p1 p2 mn mx n (clipStepOrigDeltas p1 p2 mn mx pt1 pt2).1
        (clipStepOrigDeltas p1 p2 mn mx pt1 pt2).2

/-! ## Integer line rasterization (`draw_line_without_clip`) -/

/-- The `while x != final_x` loop of `draw_line_without_clip`, fuel-indexed:
one pixel is pushed per iteration (un-swapping the axes when `steep`), then
the error term is updated and the major coordinate advances by `sx`.
`none` = the fuel bound was exhausted while `x ≠ final_x`. -/
def bresLoop (steep : Bool) (sx sy stepc desc finalX : ℤ) :
    ℕ → ℤ → ℤ → ℤ → Option (List (ℤ × ℤ))
  | 0, x, _, _ => if x = finalX then some [] else none
  | n + 1, x, y, e =>
    if x = finalX then some []
    else
      let pix : ℤ × ℤ := if steep then (y, x) else (x, y)
      let e1 := e + stepc
      if 0 ≤ e1 then
        Option.map (fun L => pix :: L) (bresLoop steep sx sy stepc desc finalX n (x + sx) (y + sy) (e1 + desc))
      else
        Option.map (fun L => pix :: L) (bresLoop steep sx sy stepc desc finalX n (x + sx) y e1)

/-- `draw_line_without_clip`, set up exactly as in the source: deltas,
step signs, the axis swap when `dx < dy`, error accumulator `e = -dx`,
increment `2*dy`, decrement `-2*dx`.  The fuel is the number of iterations the
`while` loop performs, `|final_x - x|`; sufficiency is proved below. -/
def bresRun (x0 y0 x1 y1 : ℤ) : Option (List (ℤ × ℤ)) :=
  let dx := |x1 - x0|
  let dy := |y1 - y0|
  let sx : ℤ := if x0 ≤ x1 then 1 else -1
  let sy : ℤ := if y0 ≤ y1 then 1 else -1
  let steep : Bool := decide (dx < dy)
  let finalX := if dx < dy then y1 else x1
  let dx' := if dx < dy then dy else dx
  let dy' := if dx < dy then dx else dy
  let mx0 := if dx < dy then y0 else x0
  let my0 := if dx < dy then x0 else y0
  let sx' := if dx < dy then sy else sx
  let sy' := if dx < dy then sx else sy
  bresLoop steep sx' sy' (2 * dy') (-(2 * dx')) finalX (finalX - mx0).natAbs mx0 my0 (-dx')

/-- The list of pixels written by `draw_line_without_clip`. -/
def draw_line_without_clip (x0 y0 x1 y1 : ℤ) : List (ℤ × ℤ) :=
  (bresRun x0 y0 x1 y1).getD []

/-! ## `Renderer::draw_line` -/

/-- `Renderer::draw_line`: clip against `[(0,0), (w-1, h-1)]`, then cast the
clipped endpoints with `as i32` and rasterize.  A rejected segment (and, in
the model, an exhausted fuel bound, proved unreachable) writes nothing. -/
def draw_line (w h : ℕ) (p1 p2 : Vec2) : List (ℤ × ℤ) :=
  match clipLoop p1 (0, 0) ((w : ℚ) - 1, (h : ℚ) - 1) 6 p1 p2 with
  | some (some (q1, q2)) =>
      draw_line_without_clip (rustTrunc q1.1) (rustTrunc q1.2) (rustTrunc q2.1) (rustTrunc q2.2)
  | _ => []

/-! ## Trapezoid scanline fill -/

/-- `scanline.rs` collaborator value (`Scanline`), as described by the spec:
`{y, vertex (left endpoint), step (per-pixel delta), width (span length)}`. -/
structure Scanline where
  y : ℤ
  vertex : Vec2
  step : Vec2
  width : ℚ

/-- The `while scanline.width > 0.0` loop of `draw_scanline`, fuel-indexed:
each iteration writes `(x as u32, yc)` provided `0 ≤ x < w`, then decrements
the width by `1` and advances the vertex by `step`.  `yc` is the already-cast
row (`scanline.y as u32`, cast once before the loop). -/
def scanGo (w : ℕ) (yc : ℤ) (st : Vec2) : ℕ → ℚ → Vec2 → Option (List (ℤ × ℤ))
  | 0, width, _ => if 0 < width then none else some []
  | n + 1, width, v =>
    if 0 < width then
      Option.map (fun L => (if 0 ≤ v.1 ∧ v.1 < (w : ℚ) then [(⌊v.1⌋, yc)] else []) ++ L)
        (scanGo w yc st n (width - 1) (v + st))
    else some []

/-- The list of pixels written by `Renderer::draw_scanline`. -/
def draw_scanline (w : ℕ) (sl : Scanline) : List (ℤ × ℤ) :=
  (scanGo w (i32AsU32 sl.y) sl.step ⌈sl.width⌉.toNat sl.width sl.vertex).getD []

/-- First scanned row of `draw_trapezoid`: `(trap.top.ceil().max(0.0)) as i32`. -/
def trapTopRow (top : ℚ) : ℤ := max ⌈top⌉ 0

/-- Last scanned row of `draw_trapezoid`:
`(trap.bottom.ceil()).min(height as f32 - 1.0) as i32 - 1`. -/
def trapBottomRow (h : ℕ) (bottom : ℚ) : ℤ := min ⌈bottom⌉ ((h : ℤ) - 1) - 1

/-- The integer rows visited by the `while y <= bottom` loop of
`draw_trapezoid`: `trapTopRow, trapTopRow + 1, …, trapBottomRow`. -/
def trapRows (h : ℕ) (top bottom : ℚ) : List ℤ :=
  (List.range (trapBottomRow h bottom - trapTopRow top + 1).toNat).map
    (fun i : ℕ => trapTopRow top + (i : ℤ))

/-- The list of pixels written by `Renderer::draw_trapezoid`, with the
collaborator call `Scanline::from_trapezoid(&trap, y)` abstracted as an
arbitrary function `sl` from the row to the produced `Scanline`. -/
def draw_trapezoid (w h : ℕ) (top bottom : ℚ) (sl : ℤ → Scanline) : List (ℤ × ℤ) :=
  (trapRows h top bottom).flatMap fun r => draw_scanline w (sl r)

/-! ## Auxiliary notions used by the statements and proofs -/

/-- Proof-measure of one working point of the clipping loop: a pending
TOP/BOTTOM violation costs 2, any remaining violation costs 1. -/
def ptMeasure (mn mx p : Vec2) : ℕ :=
  (if ocy p mn mx = 0 then 0 else 2) + (if compute_outcode p mn mx = 0 then 0 else 1)

/-- Proof-measure of a state of the clipping loop. -/
def stMeasure (mn mx : Vec2) (s : Vec2 × Vec2) : ℕ :=
  ptMeasure mn mx s.1 + ptMeasure mn mx s.2

/-- The state of the clipping loop after `k` iterations from state `s`. -/
def clipIter (p1 mn mx : Vec2) (s : Vec2 × Vec2) (k : ℕ) : Vec2 × Vec2 :=
  (fun t => clipStep p1 mn mx t.1 t.2)^[k] s

/-! ## Viewport transform (`draw_triangle`, step 3) -/

/-- The viewport transform of `draw_triangle` (lines 60–66 of `renderer.rs`):
`x' = (v.x + 1) * 0.5 * (w - 1) + viewport.x`,
`y' = h - (v.y + 1) * 0.5 * (h - 1) + viewport.y`. -/
def viewport_transform (vx vy : ℤ) (w h : ℕ) (v : Vec2) : Vec2 :=
  ((v.1 + 1) * (1 / 2) * ((w : ℚ) - 1) + (vx : ℚ),
   (h : ℚ) - (v.2 + 1) * (1 / 2) * ((h : ℚ) - 1) + (vy : ℚ))

/-! ## Basic facts about outcodes -/

lemma natLor_eq_zero_iff (a b : ℕ) : a ||| b = 0 ↔ a = 0 ∧ b = 0 := by
  constructor
  · intro h
    constructor
    · refine Nat.eq_of_testBit_eq fun i => ?_
      have hi := congrArg (fun t => Nat.testBit t i) h
      simp only [Nat.testBit_lor, Nat.zero_testBit, Bool.or_eq_false_iff] at hi
      simp [hi.1]
    · refine Nat.eq_of_testBit_eq fun i => ?_
      have hi := congrArg (fun t => Nat.testBit t i) h
      simp only [Nat.testBit_lor, Nat.zero_testBit, Bool.or_eq_false_iff] at hi
      simp [hi.2]
  · rintro ⟨rfl, rfl⟩
    rfl

lemma ocx_cases (p mn mx : Vec2) :
    (ocx p mn mx = 0 ∧ mn.1 ≤ p.1 ∧ p.1 ≤ mx.1) ∨
    (ocx p mn mx = 1 ∧ p.1 < mn.1) ∨
    (ocx p mn mx = 2 ∧ mn.1 ≤ p.1 ∧ mx.1 < p.1) := by
  unfold ocx
  split_ifs with h1 h2
  · right; left; exact ⟨rfl, h1⟩
  · right; right; exact ⟨rfl, le_of_not_lt h1, h2⟩
  · left; exact ⟨rfl, le_of_not_lt h1, le_of_not_lt h2⟩

lemma ocy_cases (p mn mx : Vec2) :
    (ocy p mn mx = 0 ∧ mn.2 ≤ p.2 ∧ p.2 ≤ mx.2) ∨
    (ocy p mn mx = 4 ∧ p.2 < mn.2) ∨
    (ocy p mn mx = 8 ∧ mn.2 ≤ p.2 ∧ mx.2 < p.2) := by
  unfold ocy
  split_ifs with h1 h2
  · right; left; exact ⟨rfl, h1⟩
  · right; right; exact ⟨rfl, le_of_not_lt h1, h2⟩
  · left; exact ⟨rfl, le_of_not_lt h1, le_of_not_lt h2⟩

lemma compute_outcode_eq_add (p mn mx : Vec2) :
    compute_outcode p mn mx = ocx p mn mx + ocy p mn mx := by
  unfold compute_outcode ocx ocy
  split_ifs <;> decide

lemma compute_outcode_eq_zero_iff (p mn mx : Vec2) :
    compute_outcode p mn mx = 0 ↔
      mn.1 ≤ p.1 ∧ p.1 ≤ mx.1 ∧ mn.2 ≤ p.2 ∧ p.2 ≤ mx.2 := by
  constructor
  · intro h0
    rw [compute_outcode_eq_add] at h0
    rcases ocx_cases p mn mx with ⟨hx, hx1, hx2⟩ | ⟨hx, hx1⟩ | ⟨hx, hx1, hx2⟩ <;>
      rcases ocy_cases p mn mx with ⟨hy, hy1, hy2⟩ | ⟨hy, hy1⟩ | ⟨hy, hy1, hy2⟩ <;>
      rw [hx, hy] at h0 <;> first | exact ⟨hx1, hx2, hy1, hy2⟩ | omega
  · rintro ⟨ha, hb, hc, hd⟩
    rw [compute_outcode_eq_add]
    rcases ocx_cases p mn mx with ⟨hx, -⟩ | ⟨hx, hx1⟩ | ⟨hx, -, hx2⟩ <;>
      rcases ocy_cases p mn mx with ⟨hy, -⟩ | ⟨hy, hy1⟩ | ⟨hy, -, hy2⟩ <;>
      rw [hx, hy] <;> first | rfl | linarith

/-! ## Structural facts about the clipping loop -/

lemma clipLoop_reject (p1 mn mx pt1 pt2 : Vec2) (n : ℕ)
    (h : compute_outcode pt1 mn mx &&& compute_outcode pt2 mn mx ≠ 0) :
    clipLoop p1 mn mx n pt1 pt2 = some none := by
  cases n <;> simp [clipLoop, h]

lemma clipLoop_accept (p1 mn mx pt1 pt2 : Vec2) (n : ℕ)
    (h1 : compute_outcode pt1 mn mx = 0) (h2 : compute_outcode pt2 mn mx = 0) :
    clipLoop p1 mn mx n pt1 pt2 = some (some (pt1, pt2)) := by
  cases n <;> simp [clipLoop, h1, h2]

lemma clipLoop_cont (p1 mn mx pt1 pt2 : Vec2) (n : ℕ)
    (hand : compute_outcode pt1 mn mx &&& compute_outcode pt2 mn mx = 0)
    (hor : compute_outcode pt1 mn mx ||| compute_outcode pt2 mn mx ≠ 0) :
    clipLoop p1 mn mx (n + 1) pt1 pt2 =
      clipLoop p1 mn mx n (clipStep p1 mn mx pt1 pt2).1 (clipStep p1 mn mx pt1 pt2).2 := by
  simp [clipLoop, hand, hor]

/-- C9: a point lying exactly on the clip-rectangle boundary, with the other
coordinate in range, has outcode 0 — the outcode comparisons are strict, so
boundary points count as inside. -/
theorem boundary_point_outcode_zero (p mn mx : Vec2)
    (h : ((p.1 = mn.1 ∨ p.1 = mx.1) ∧ mn.2 ≤ p.2 ∧ p.2 ≤ mx.2) ∨
         ((p.2 = mn.2 ∨ p.2 = mx.2) ∧ mn.1 ≤ p.1 ∧ p.1 ≤ mx.1))
    (hx : mn.1 ≤ mx.1) (hy : mn.2 ≤ mx.2) :
    compute_outcode p mn mx = 0 := by
  rw [compute_outcode_eq_zero_iff]
  rcases h with ⟨hb | hb, h1, h2⟩ | ⟨hb | hb, h1, h2⟩ <;>
    refine ⟨?_, ?_, ?_, ?_⟩ <;> first | linarith | (rw [hb]; linarith) | (rw [hb])

theorem boundary_point_outcode_zero_witness :
    compute_outcode ((0 : ℚ), (5 : ℚ)) ((0 : ℚ), (0 : ℚ)) ((10 : ℚ), (10 : ℚ)) = 0 :=
  boundary_point_outcode_zero (0, 5) (0, 0) (10, 10)
    (Or.inl ⟨Or.inl rfl, by norm_num, by norm_num⟩) (by norm_num) (by norm_num)

/-- C7: a segment whose two endpoints both lie inside the clip rectangle
(boundary inclusive) is returned unchanged by `cohen_sutherland_line_clip`. -/
theorem clip_inside_identity (p1 p2 mn mx : Vec2)
    (h1 : mn.1 ≤ p1.1 ∧ p1.1 ≤ mx.1 ∧ mn.2 ≤ p1.2 ∧ p1.2 ≤ mx.2)
    (h2 : mn.1 ≤ p2.1 ∧ p2.1 ≤ mx.1 ∧ mn.2 ≤ p2.2 ∧ p2.2 ≤ mx.2) :
    cohen_sutherland_line_clip p1 p2 mn mx = some (p1, p2) := by
  unfold cohen_sutherland_line_clip
  rw [clipLoop_accept p1 mn mx p1 p2 6 ((compute_outcode_eq_zero_iff p1 mn mx).mpr h1)
    ((compute_outcode_eq_zero_iff p2 mn mx).mpr h2)]
  rfl

theorem clip_inside_identity_witness :
    cohen_sutherland_line_clip ((1 : ℚ), (2 : ℚ)) ((9 : ℚ), (10 : ℚ)) ((0 : ℚ), (0 : ℚ))
      ((10 : ℚ), (10 : ℚ)) = some ((1, 2), (9, 10)) :=
  clip_inside_identity (1, 2) (9, 10) (0, 0) (10, 10)
    (by norm_num) (by norm_num)

/-- C1 (counterexample): under the viewport formula of the code, NDC
`(-1, -1)` with `w = h = 100` and origin `(0, 0)` does NOT map to `(0, 99)`. -/
theorem viewport_ndc_counterexample :
    viewport_transform 0 0 100 100 (-1, -1) ≠ ((0 : ℚ), (99 : ℚ)) := by
  unfold viewport_transform
  intro h
  rw [Prod.ext_iff] at h
  norm_num at h

/-- C1 (amended): the viewport transform maps NDC `(-1, -1)` to
`(origin.x, origin.y + h)` — one row BELOW the last valid pixel row — and in
particular to `(0, 100)` for `w = h = 100` with origin `(0, 0)`. -/
theorem viewport_ndc_maps_to_origin_h :
    (∀ (vx vy : ℤ) (w h : ℕ),
      viewport_transform vx vy w h (-1, -1) = ((vx : ℚ), (vy : ℚ) + (h : ℚ))) ∧
    viewport_transform 0 0 100 100 (-1, -1) = ((0 : ℚ), (100 : ℚ)) := by
  constructor
  · intro vx vy w h
    unfold viewport_transform
    rw [Prod.ext_iff]
    constructor <;> norm_num <;> ring
  · unfold viewport_transform
    rw [Prod.ext_iff]
    norm_num

/-! ## Scan rows of `draw_trapezoid` -/

lemma trapRows_mem (h : ℕ) (top bottom : ℚ) (y : ℤ) :
    y ∈ trapRows h top bottom ↔ trapTopRow top ≤ y ∧ y ≤ trapBottomRow h bottom := by
  unfold trapRows
  rw [List.mem_map]
  constructor
  · rintro ⟨i, hi, rfl⟩
    rw [List.mem_range] at hi
    omega
  · intro hy
    refine ⟨(y - trapTopRow top).toNat, ?_, ?_⟩
    · rw [List.mem_range]
      omega
    · omega

/-- C5: `draw_trapezoid` visits exactly the integer rows
`max(⌈top⌉, 0) ≤ y ≤ min(⌈bottom⌉, h - 1) - 1`; the row at the trapezoid's
bottom bound is excluded, so when two trapezoids share a middle row
(`bottom₁ = top₂`) that row is scanned by at most one of them. -/
theorem trap_rows_exact (h : ℕ) (top bottom : ℚ) (y : ℤ) :
    (y ∈ trapRows h top bottom ↔
      max ⌈top⌉ 0 ≤ y ∧ y ≤ min ⌈bottom⌉ ((h : ℤ) - 1) - 1) ∧
    (∀ top2 bottom2 : ℚ, top2 = bottom →
      y ∈ trapRows h top bottom → y ∉ trapRows h top2 bottom2) := by
  constructor
  · rw [trapRows_mem]
    unfold trapTopRow trapBottomRow
    tauto
  · intro top2 bottom2 ht hy hy2
    rw [trapRows_mem] at hy hy2
    unfold trapTopRow trapBottomRow at hy hy2
    rw [ht] at hy2
    omega

theorem trap_rows_exact_witness :
    ((2 : ℤ) ∈ trapRows 10 (3 / 2) 4 ↔
      max ⌈(3 / 2 : ℚ)⌉ 0 ≤ (2 : ℤ) ∧ (2 : ℤ) ≤ min ⌈(4 : ℚ)⌉ ((10 : ℤ) - 1) - 1) ∧
    ((2 : ℤ) ∈ trapRows 10 (3 / 2) 4 → (2 : ℤ) ∉ trapRows 10 4 7) := by
  have h := trap_rows_exact 10 (3 / 2) 4 2
  exact ⟨h.1, h.2 4 7 rfl⟩

/-! ## C2: which deltas do the intersection formulas use? -/

lemma clipLoop_cont_eq (p1 mn mx pt1 pt2 q1 q2 : Vec2) (n : ℕ)
    (hand : compute_outcode pt1 mn mx &&& compute_outcode pt2 mn mx = 0)
    (hor : compute_outcode pt1 mn mx ||| compute_outcode pt2 mn mx ≠ 0)
    (hstep : clipStep p1 mn mx pt1 pt2 = (q1, q2)) :
    clipLoop p1 mn mx (n + 1) pt1 pt2 = clipLoop p1 mn mx n q1 q2 := by
  rw [clipLoop_cont p1 mn mx pt1 pt2 n hand hor, hstep]

lemma clipLoopOrig_accept (p1 p2 mn mx pt1 pt2 : Vec2) (n : ℕ)
    (h1 : compute_outcode pt1 mn mx = 0) (h2 : compute_outcode pt2 mn mx = 0) :
    clipLoopOrigDeltas p1 p2 mn mx n pt1 pt2 = some (some (pt1, pt2)) := by
  cases n <;> simp [clipLoopOrigDeltas, h1, h2]

lemma clipLoopOrig_cont_eq (p1 p2 mn mx pt1 pt2 q1 q2 : Vec2) (n : ℕ)
    (hand : compute_outcode pt1 mn mx &&& compute_outcode pt2 mn mx = 0)
    (hor : compute_outcode pt1 mn mx ||| compute_outcode pt2 mn mx ≠ 0)
    (hstep : clipStepOrigDeltas p1 p2 mn mx pt1 pt2 = (q1, q2)) :
    clipLoopOrigDeltas p1 p2 mn mx (n + 1) pt1 pt2 = clipLoopOrigDeltas p1 p2 mn mx n q1 q2 := by
  simp only [clipLoopOrigDeltas, hand, hor]
  simp [hstep]

/-- C2 (counterexample): for `p1 = (-1, 11)`, `p2 = (2, -1)` against the
rectangle `[(0,0), (10,10)]`, the source's loop (divisions over the CURRENT
working-point deltas) accepts with first endpoint `(0, 20/3)`, while the loop
described by the spec (divisions over the ORIGINAL `p1`/`p2` deltas) accepts
with first endpoint `(0, 7)` — so the claim is false on the third iteration. -/
theorem clip_orig_deltas_counterexample :
    clipLoop ((-1 : ℚ), 11) (0, 0) (10, 10) 6 (-1, 11) (2, -1) =
      some (some ((0, 20 / 3), (3 / 2, 0))) ∧
    clipLoopOrigDeltas ((-1 : ℚ), 11) (2, -1) (0, 0) (10, 10) 6 (-1, 11) (2, -1) =
      some (some ((0, 7), (3 / 2, 0))) ∧
    ((0 : ℚ), (20 / 3 : ℚ)) ≠ ((0 : ℚ), (7 : ℚ)) := by
  have o0a : compute_outcode ((-1 : ℚ), 11) (0, 0) (10, 10) = 9 := by decide
  have o0b : compute_outcode ((2 : ℚ), -1) (0, 0) (10, 10) = 4 := by decide
  have o1a : compute_outcode ((-3 / 4 : ℚ), 10) (0, 0) (10, 10) = 1 := by
    norm_num [compute_outcode, ocx, ocy]
  have o2b : compute_outcode ((3 / 2 : ℚ), 0) (0, 0) (10, 10) = 0 := by
    norm_num [compute_outcode, ocx, ocy]
  have o3a : compute_outcode ((0 : ℚ), 20 / 3) (0, 0) (10, 10) = 0 := by
    norm_num [compute_outcode, ocx, ocy]
  have o3b : compute_outcode ((0 : ℚ), 7) (0, 0) (10, 10) = 0 := by decide
  refine ⟨?_, ?_, by simp [Prod.ext_iff]; norm_num⟩
  · have s1 : clipStep ((-1 : ℚ), 11) (0, 0) (10, 10) (-1, 11) (2, -1) =
        ((-3 / 4, 10), (2, -1)) := by
      unfold clipStep clipReplacement
      rw [o0a, o0b]
      norm_num [(by decide : (9 &&& 8 : ℕ) = 8)]
    have s2 : clipStep ((-1 : ℚ), 11) (0, 0) (10, 10) (-3 / 4, 10) (2, -1) =
        ((-3 / 4, 10), (3 / 2, 0)) := by
      unfold clipStep clipReplacement
      rw [o1a, o0b]
      norm_num [(by decide : (4 &&& 8 : ℕ) = 0), (by decide : (4 &&& 4 : ℕ) = 4)]
    have s3 : clipStep ((-1 : ℚ), 11) (0, 0) (10, 10) (-3 / 4, 10) (3 / 2, 0) =
        ((0, 20 / 3), (3 / 2, 0)) := by
      unfold clipStep clipReplacement
      rw [o1a, o2b]
      norm_num [(by decide : (1 &&& 8 : ℕ) = 0), (by decide : (1 &&& 4 : ℕ) = 0),
        (by decide : (1 &&& 2 : ℕ) = 0), (by decide : (1 &&& 1 : ℕ) = 1)]
    rw [clipLoop_cont_eq _ _ _ _ _ _ _ 5 (by rw [o0a, o0b]; decide)
        (by rw [o0a, o0b]; decide) s1,
      clipLoop_cont_eq _ _ _ _ _ _ _ 4 (by rw [o1a, o0b]; decide)
        (by rw [o1a, o0b]; decide) s2,
      clipLoop_cont_eq _ _ _ _ _ _ _ 3 (by rw [o1a, o2b]; decide)
        (by rw [o1a, o2b]; decide) s3]
    exact clipLoop_accept _ _ _ _ _ 3 o3a o2b
  · have t1 : clipStepOrigDeltas ((-1 : ℚ), 11) (2, -1) (0, 0) (10, 10) (-1, 11) (2, -1) =
        ((-3 / 4, 10), (2, -1)) := by
      unfold clipStepOrigDeltas clipReplacementOrigDeltas
      rw [o0a, o0b]
      norm_num [(by decide : (9 &&& 8 : ℕ) = 8)]
    have t2 : clipStepOrigDeltas ((-1 : ℚ), 11) (2, -1) (0, 0) (10, 10) (-3 / 4, 10) (2, -1) =
        ((-3 / 4, 10), (3 / 2, 0)) := by
      unfold clipStepOrigDeltas clipReplacementOrigDeltas
      rw [o1a, o0b]
      norm_num [(by decide : (4 &&& 8 : ℕ) = 0), (by decide : (4 &&& 4 : ℕ) = 4)]
    have t3 : clipStepOrigDeltas ((-1 : ℚ), 11) (2, -1) (0, 0) (10, 10) (-3 / 4, 10) (3 / 2, 0) =
        ((0, 7), (3 / 2, 0)) := by
      unfold clipStepOrigDeltas clipReplacementOrigDeltas
      rw [o1a, o2b]
      norm_num [(by decide : (1 &&& 8 : ℕ) = 0), (by decide : (1 &&& 4 : ℕ) = 0),
        (by decide : (1 &&& 2 : ℕ) = 0), (by decide : (1 &&& 1 : ℕ) = 1)]
    rw [clipLoopOrig_cont_eq _ _ _ _ _ _ _ _ 5 (by rw [o0a, o0b]; decide)
        (by rw [o0a, o0b]; decide) t1,
      clipLoopOrig_cont_eq _ _ _ _ _ _ _ _ 4 (by rw [o1a, o0b]; decide)
        (by rw [o1a, o0b]; decide) t2,
      clipLoopOrig_cont_eq _ _ _ _ _ _ _ _ 3 (by rw [o1a, o2b]; decide)
        (by rw [o1a, o2b]; decide) t3]
    exact clipLoopOrig_accept _ _ _ _ _ _ 3 o3b o2b

/-- C2 (amended): the intersection divisions use the deltas of the CURRENT
working points.  In the RIGHT/LEFT branches the replacement point lies exactly
on the line through the current working points; in the TOP/BOTTOM branches the
replacement x, after removing the drift `p1.x - pt1.x` contributed by using
the ORIGINAL `p1.x` as base, lies on that same current line.  (Only the base
x-coordinate of the TOP/BOTTOM formulas comes from the original endpoints.) -/
theorem clip_intersection_uses_current_deltas (p1 mn mx pt1 pt2 : Vec2) (oc : ℕ)
    (hoc : oc = if compute_outcode pt1 mn mx < compute_outcode pt2 mn mx then
      compute_outcode pt2 mn mx else compute_outcode pt1 mn mx) :
    (oc &&& 8 ≠ 0 → pt2.2 - pt1.2 ≠ 0 →
      (clipReplacement p1 mn mx pt1 pt2).2 = mx.2 ∧
      ((clipReplacement p1 mn mx pt1 pt2).1 - (p1.1 - pt1.1) - pt1.1) * (pt2.2 - pt1.2)
        = (pt2.1 - pt1.1) * (mx.2 - pt1.2)) ∧
    (oc &&& 8 = 0 → oc &&& 4 ≠ 0 → pt2.2 - pt1.2 ≠ 0 →
      (clipReplacement p1 mn mx pt1 pt2).2 = mn.2 ∧
      ((clipReplacement p1 mn mx pt1 pt2).1 - (p1.1 - pt1.1) - pt1.1) * (pt2.2 - pt1.2)
        = (pt2.1 - pt1.1) * (mn.2 - pt1.2)) ∧
    (oc &&& 8 = 0 → oc &&& 4 = 0 → oc &&& 2 ≠ 0 → pt2.1 - pt1.1 ≠ 0 →
      (clipReplacement p1 mn mx pt1 pt2).1 = mx.1 ∧
      ((clipReplacement p1 mn mx pt1 pt2).2 - pt1.2) * (pt2.1 - pt1.1)
        = (pt2.2 - pt1.2) * (mx.1 - pt1.1)) ∧
    (oc &&& 8 = 0 → oc &&& 4 = 0 → oc &&& 2 = 0 → oc &&& 1 ≠ 0 → pt2.1 - pt1.1 ≠ 0 →
      (clipReplacement p1 mn mx pt1 pt2).1 = mn.1 ∧
      ((clipReplacement p1 mn mx pt1 pt2).2 - pt1.2) * (pt2.1 - pt1.1)
        = (pt2.2 - pt1.2) * (mn.1 - pt1.1)) := by
  refine ⟨fun h8 hden => ?_, fun h8 h4 hden => ?_, fun h8 h4 h2 hden => ?_,
    fun h8 h4 h2 h1 hden => ?_⟩ <;>
    simp only [clipReplacement] <;> rw [← hoc]
  · rw [if_pos h8]
    refine ⟨rfl, ?_⟩
    field_simp
    ring
  · rw [if_neg (by simp [h8]), if_pos h4]
    refine ⟨rfl, ?_⟩
    field_simp
    ring
  · rw [if_neg (by simp [h8]), if_neg (by simp [h4]), if_pos h2]
    refine ⟨rfl, ?_⟩
    field_simp
    ring
  · rw [if_neg (by simp [h8]), if_neg (by simp [h4]), if_neg (by simp [h2]), if_pos h1]
    refine ⟨rfl, ?_⟩
    field_simp
    ring

theorem clip_intersection_uses_current_deltas_witness :
    (clipReplacement ((2 : ℚ), 3) (0, 0) (10, 10) (5, 20) (5, -1)).2 = 10 ∧
    ((clipReplacement ((2 : ℚ), 3) (0, 0) (10, 10) (5, 20) (5, -1)).1
        - ((2 : ℚ) - 5) - 5) * ((-1 : ℚ) - 20) = ((5 : ℚ) - 5) * ((10 : ℚ) - 20) :=
  (clip_intersection_uses_current_deltas (2, 3) (0, 0) (10, 10) (5, 20) (5, -1) 8
    (by decide)).1 (by decide) (by norm_num)

/-! ## C8: rejection behaviour of the clipping loop -/

/-- C8: the clipper returns `None` when both endpoints violate a common side
of the rectangle, and it returns `None` ONLY when, at some iteration, the two
working points share a violated region (their outcodes AND to nonzero) while
no earlier iteration exited. -/
theorem clip_none_iff_shared_region (p1 p2 mn mx : Vec2)
    (hmn1 : mn.1 ≤ mx.1) (hmn2 : mn.2 ≤ mx.2) :
    ((p1.1 < mn.1 ∧ p2.1 < mn.1) ∨ (p1.1 > mx.1 ∧ p2.1 > mx.1) ∨
     (p1.2 < mn.2 ∧ p2.2 < mn.2) ∨ (p1.2 > mx.2 ∧ p2.2 > mx.2) →
      cohen_sutherland_line_clip p1 p2 mn mx = none) ∧
    (∀ (fuel : ℕ) (pt1 pt2 : Vec2),
      clipLoop p1 mn mx fuel pt1 pt2 = some none →
      ∃ k ≤ fuel,
        (compute_outcode (clipIter p1 mn mx (pt1, pt2) k).1 mn mx &&&
          compute_outcode (clipIter p1 mn mx (pt1, pt2) k).2 mn mx ≠ 0) ∧
        ∀ j < k,
          (compute_outcode (clipIter p1 mn mx (pt1, pt2) j).1 mn mx &&&
            compute_outcode (clipIter p1 mn mx (pt1, pt2) j).2 mn mx = 0) ∧
          (compute_outcode (clipIter p1 mn mx (pt1, pt2) j).1 mn mx |||
            compute_outcode (clipIter p1 mn mx (pt1, pt2) j).2 mn mx ≠ 0)) := by
  constructor
  · intro hside
    have hand : compute_outcode p1 mn mx &&& compute_outcode p2 mn mx ≠ 0 := by
      rw [compute_outcode_eq_add, compute_outcode_eq_add]
      rcases ocx_cases p1 mn mx with ⟨ha, ha1, ha2⟩ | ⟨ha, ha1⟩ | ⟨ha, ha1, ha2⟩ <;>
        rcases ocx_cases p2 mn mx with ⟨hb, hb1, hb2⟩ | ⟨hb, hb1⟩ | ⟨hb, hb1, hb2⟩ <;>
        rcases ocy_cases p1 mn mx with ⟨hc, hc1⟩ | ⟨hc, hc1⟩ | ⟨hc, hc1, hc2⟩ <;>
        rcases ocy_cases p2 mn mx with ⟨hd, hd1⟩ | ⟨hd, hd1⟩ | ⟨hd, hd1, hd2⟩ <;>
        rw [ha, hb, hc, hd] <;>
        first
          | decide
          | (rcases hside with ⟨u, v⟩ | ⟨u, v⟩ | ⟨u, v⟩ | ⟨u, v⟩ <;> first | decide | linarith)
    unfold cohen_sutherland_line_clip
    rw [clipLoop_reject p1 mn mx p1 p2 6 hand]
    rfl
  · intro fuel
    induction fuel with
    | zero =>
      intro pt1 pt2 hres
      by_cases hand : compute_outcode pt1 mn mx &&& compute_outcode pt2 mn mx = 0
      · exfalso
        rw [show clipLoop p1 mn mx 0 pt1 pt2 =
            (if compute_outcode pt1 mn mx &&& compute_outcode pt2 mn mx ≠ 0 then some none
            else if compute_outcode pt1 mn mx ||| compute_outcode pt2 mn mx = 0 then
              some (some (pt1, pt2)) else none) from rfl, if_neg (by simp [hand])] at hres
        split at hres <;> simp at hres
      · exact ⟨0, le_refl 0, by simpa [clipIter] using hand, by omega⟩
    | succ n ih =>
      intro pt1 pt2 hres
      by_cases hand : compute_outcode pt1 mn mx &&& compute_outcode pt2 mn mx = 0
      · by_cases hor : compute_outcode pt1 mn mx ||| compute_outcode pt2 mn mx = 0
        · exfalso
          rw [clipLoop_accept p1 mn mx pt1 pt2 (n + 1)
              ((natLor_eq_zero_iff _ _).mp hor).1 ((natLor_eq_zero_iff _ _).mp hor).2] at hres
          simp at hres
        · rw [clipLoop_cont p1 mn mx pt1 pt2 n hand hor] at hres
          obtain ⟨k, hk, hK, hprev⟩ :=
            ih (clipStep p1 mn mx pt1 pt2).1 (clipStep p1 mn mx pt1 pt2).2 hres
          have hshift : ∀ m : ℕ, clipIter p1 mn mx
              ((clipStep p1 mn mx pt1 pt2).1, (clipStep p1 mn mx pt1 pt2).2) m =
              clipIter p1 mn mx (pt1, pt2) (m + 1) := by
            intro m
            unfold clipIter
            rw [Function.iterate_succ_apply]
          refine ⟨k + 1, by omega, by rw [← hshift]; exact hK, ?_⟩
          intro j hj
          cases j with
          | zero => exact ⟨hand, hor⟩
          | succ m =>
            rw [← hshift]
            exact hprev m (by omega)
      · exact ⟨0, by omega, by simpa [clipIter] using hand, by omega⟩

theorem clip_none_iff_shared_region_witness :
    cohen_sutherland_line_clip ((-5 : ℚ), 2) ((-3 : ℚ), 8) ((0 : ℚ), (0 : ℚ))
        ((10 : ℚ), (10 : ℚ)) = none ∧
    ∃ k ≤ 6,
      (compute_outcode (clipIter ((-5 : ℚ), 2) ((0 : ℚ), (0 : ℚ)) ((10 : ℚ), (10 : ℚ))
          (((-5 : ℚ), 2), ((-3 : ℚ), 8)) k).1 ((0 : ℚ), (0 : ℚ)) ((10 : ℚ), (10 : ℚ)) &&&
        compute_outcode (clipIter ((-5 : ℚ), 2) ((0 : ℚ), (0 : ℚ)) ((10 : ℚ), (10 : ℚ))
          (((-5 : ℚ), 2), ((-3 : ℚ), 8)) k).2 ((0 : ℚ), (0 : ℚ)) ((10 : ℚ), (10 : ℚ)) ≠ 0) ∧
      ∀ j < k,
        (compute_outcode (clipIter ((-5 : ℚ), 2) ((0 : ℚ), (0 : ℚ)) ((10 : ℚ), (10 : ℚ))
            (((-5 : ℚ), 2), ((-3 : ℚ), 8)) j).1 ((0 : ℚ), (0 : ℚ)) ((10 : ℚ), (10 : ℚ)) &&&
          compute_outcode (clipIter ((-5 : ℚ), 2) ((0 : ℚ), (0 : ℚ)) ((10 : ℚ), (10 : ℚ))
            (((-5 : ℚ), 2), ((-3 : ℚ), 8)) j).2 ((0 : ℚ), (0 : ℚ)) ((10 : ℚ), (10 : ℚ)) = 0) ∧
        (compute_outcode (clipIter ((-5 : ℚ), 2) ((0 : ℚ), (0 : ℚ)) ((10 : ℚ), (10 : ℚ))
            (((-5 : ℚ), 2), ((-3 : ℚ), 8)) j).1 ((0 : ℚ), (0 : ℚ)) ((10 : ℚ), (10 : ℚ)) |||
          compute_outcode (clipIter ((-5 : ℚ), 2) ((0 : ℚ), (0 : ℚ)) ((10 : ℚ), (10 : ℚ))
            (((-5 : ℚ), 2), ((-3 : ℚ), 8)) j).2 ((0 : ℚ), (0 : ℚ)) ((10 : ℚ), (10 : ℚ)) ≠ 0) := by
  have h := clip_none_iff_shared_region ((-5 : ℚ), 2) ((-3 : ℚ), 8) ((0 : ℚ), (0 : ℚ))
    ((10 : ℚ), (10 : ℚ)) (by norm_num) (by norm_num)
  have h1 := h.1 (Or.inl ⟨by norm_num, by norm_num⟩)
  refine ⟨h1, h.2 6 ((-5 : ℚ), 2) ((-3 : ℚ), 8) ?_⟩
  have : clipLoop ((-5 : ℚ), 2) ((0 : ℚ), (0 : ℚ)) ((10 : ℚ), (10 : ℚ)) 6
      ((-5 : ℚ), 2) ((-3 : ℚ), 8) = some none :=
    clipLoop_reject _ _ _ _ _ 6 (by decide)
  exact this

/-! ## Facts about the line rasterizer -/

lemma sign_mul_sub (a b : ℤ) : (if a ≤ b then (1 : ℤ) else -1) * (b - a) = |b - a| := by
  split_ifs with h
  · rw [abs_of_nonneg (by omega)]
    ring
  · rw [abs_of_neg (by omega)]
    ring

lemma bresLoop_isSome (steep : Bool) (sx sy stepc desc finalX : ℤ)
    (hsx : sx = 1 ∨ sx = -1) :
    ∀ (n : ℕ) (x y e : ℤ), sx * (finalX - x) = n →
      (bresLoop steep sx sy stepc desc finalX n x y e).isSome := by
  intro n
  induction n with
  | zero =>
    intro x y e hn
    have hx : x = finalX := by rcases hsx with rfl | rfl <;> omega
    simp [bresLoop, hx]
  | succ n ih =>
    intro x y e hn
    by_cases hx : x = finalX
    · simp [bresLoop, hx]
    · have hn' : sx * (finalX - (x + sx)) = n := by
        rcases hsx with rfl | rfl <;> push_cast at hn ⊢ <;> omega
      simp only [bresLoop, if_neg hx]
      by_cases he : 0 ≤ e + stepc
      · rw [if_pos he, Option.isSome_map']
        exact ih (x + sx) (y + sy) (e + stepc + desc) hn'
      · rw [if_neg he, Option.isSome_map']
        exact ih (x + sx) y (e + stepc) hn'

lemma bresLoop_length (steep : Bool) (sx sy stepc desc finalX : ℤ)
    (hsx : sx = 1 ∨ sx = -1) :
    ∀ (n : ℕ) (x y e : ℤ) (L : List (ℤ × ℤ)),
      bresLoop steep sx sy stepc desc finalX n x y e = some L →
      sx * (finalX - x) = n → L.length = n := by
  intro n
  induction n with
  | zero =>
    intro x y e L hL hn
    have hx : x = finalX := by rcases hsx with rfl | rfl <;> omega
    simp [bresLoop, hx] at hL
    simp [← hL]
  | succ n ih =>
    intro x y e L hL hn
    have hx : ¬ x = finalX := by rcases hsx with rfl | rfl <;> push_cast at hn <;> omega
    have hn' : sx * (finalX - (x + sx)) = n := by
      rcases hsx with rfl | rfl <;> push_cast at hn ⊢ <;> omega
    simp only [bresLoop, if_neg hx] at hL
    by_cases he : 0 ≤ e + stepc
    · rw [if_pos he] at hL
      obtain ⟨L', hL', rfl⟩ := Option.map_eq_some'.mp hL
      simp [ih (x + sx) (y + sy) (e + stepc + desc) L' hL' hn']
    · rw [if_neg he] at hL
      obtain ⟨L', hL', rfl⟩ := Option.map_eq_some'.mp hL
      simp [ih (x + sx) y (e + stepc) L' hL' hn']

lemma bresLoop_mem_bounds (steep : Bool) (sx sy dy dx finalX Y1 : ℤ)
    (hsx : sx = 1 ∨ sx = -1) (hsy : sy = 1 ∨ sy = -1)
    (hdy : 0 ≤ dy) (hdd : dy ≤ dx) :
    ∀ (n : ℕ) (x y e : ℤ) (L : List (ℤ × ℤ)),
      bresLoop steep sx sy (2 * dy) (-(2 * dx)) finalX n x y e = some L →
      sx * (finalX - x) = n →
      e < 0 → -(2 * dx) ≤ e →
      e + 2 * dy * n - 2 * dx * (sy * (Y1 - y)) = -dx →
      ∀ q ∈ L,
        (1 ≤ sx * (finalX - (if steep then q.2 else q.1)) ∧
         0 ≤ sx * ((if steep then q.2 else q.1) - x)) ∧
        (0 ≤ sy * (Y1 - (if steep then q.1 else q.2)) ∧
         0 ≤ sy * ((if steep then q.1 else q.2) - y)) := by
  have hsy2 : sy * sy = 1 := by rcases hsy with rfl | rfl <;> norm_num
  intro n
  induction n with
  | zero =>
    intro x y e L hL hn he1 he2 hinv q hq
    have hx : x = finalX := by rcases hsx with rfl | rfl <;> omega
    simp [bresLoop, hx] at hL
    subst hL
    simp at hq
  | succ n ih =>
    intro x y e L hL hn he1 he2 hinv q hq
    have hx : ¬ x = finalX := by rcases hsx with rfl | rfl <;> push_cast at hn <;> omega
    have hn' : sx * (finalX - (x + sx)) = n := by
      rcases hsx with rfl | rfl <;> push_cast at hn ⊢ <;> omega
    have hdxpos : 0 < dx := by linarith
    have hnn : 0 ≤ 2 * dy * (n : ℤ) := by positivity
    have hklb : -dx ≤ 2 * dx * (sy * (Y1 - y)) := by
      push_cast at hinv
      linarith
    have hkub : 0 ≤ sy * (Y1 - y) := by
      by_contra hneg
      push_neg at hneg
      have h1 : sy * (Y1 - y) ≤ -1 := by linarith
      have h2 : 2 * dx * (sy * (Y1 - y)) ≤ 2 * dx * (-1) :=
        mul_le_mul_of_nonneg_left h1 (by linarith)
      linarith
    simp only [bresLoop, if_neg hx] at hL
    by_cases he : 0 ≤ e + 2 * dy
    · rw [if_pos he] at hL
      obtain ⟨L', hL', rfl⟩ := Option.map_eq_some'.mp hL
      rcases List.mem_cons.mp hq with rfl | hq'
      · constructor
        · constructor
          · rcases hsx with rfl | rfl <;> cases steep <;> simp <;> push_cast at hn <;> omega
          · cases steep <;> simp
        · cases steep <;> simp [hkub]
      · have hrec := ih (x + sx) (y + sy) (e + 2 * dy + -(2 * dx)) L' hL' hn'
          (by linarith) (by linarith)
          (by push_cast at hinv ⊢; linear_combination hinv + 2 * dx * hsy2) q hq'
        refine ⟨⟨hrec.1.1, ?_⟩, hrec.2.1, ?_⟩
        · have hstep : sx * ((if steep then q.2 else q.1) - x)
              = sx * ((if steep then q.2 else q.1) - (x + sx)) + sx * sx := by ring
          have hsx2 : sx * sx = 1 := by rcases hsx with rfl | rfl <;> norm_num
          rw [hstep, hsx2]
          linarith [hrec.1.2]
        · have hstep : sy * ((if steep then q.1 else q.2) - y)
              = sy * ((if steep then q.1 else q.2) - (y + sy)) + sy * sy := by ring
          rw [hstep, hsy2]
          linarith [hrec.2.2]
    · rw [if_neg he] at hL
      obtain ⟨L', hL', rfl⟩ := Option.map_eq_some'.mp hL
      rcases List.mem_cons.mp hq with rfl | hq'
      · constructor
        · constructor
          · rcases hsx with rfl | rfl <;> cases steep <;> simp <;> push_cast at hn <;> omega
          · cases steep <;> simp
        · cases steep <;> simp [hkub]
      · have hrec := ih (x + sx) y (e + 2 * dy) L' hL' hn'
          (by linarith) (by linarith)
          (by push_cast at hinv ⊢; linear_combination hinv) q hq'
        refine ⟨⟨hrec.1.1, ?_⟩, hrec.2.1, ?_⟩
        · have hstep : sx * ((if steep then q.2 else q.1) - x)
              = sx * ((if steep then q.2 else q.1) - (x + sx)) + sx * sx := by ring
          have hsx2 : sx * sx = 1 := by rcases hsx with rfl | rfl <;> norm_num
          rw [hstep, hsx2]
          linarith [hrec.1.2]
        · exact hrec.2.2

lemma bresRun_writes (x0 y0 x1 y1 : ℤ) (L : List (ℤ × ℤ))
    (h : bresRun x0 y0 x1 y1 = some L) :
    ∀ q ∈ L, min x0 x1 ≤ q.1 ∧ q.1 ≤ max x0 x1 ∧
      min y0 y1 ≤ q.2 ∧ q.2 ≤ max y0 y1 ∧ q ≠ (x1, y1) := by
  intro q hq
  by_cases hst : |x1 - x0| < |y1 - y0|
  · simp only [bresRun, hst, if_true, decide_True] at h
    have habs : (0 : ℤ) ≤ |x1 - x0| := abs_nonneg _
    have hb := bresLoop_mem_bounds true (if y0 ≤ y1 then 1 else -1) (if x0 ≤ x1 then 1 else -1)
      |x1 - x0| |y1 - y0| y1 x1
      (by split_ifs <;> simp) (by split_ifs <;> simp) habs (le_of_lt hst)
      (y1 - y0).natAbs y0 x0 (-|y1 - y0|) L h
      (by rw [sign_mul_sub, Int.abs_eq_natAbs])
      (by omega) (by omega)
      (by rw [sign_mul_sub, ← Int.abs_eq_natAbs]; ring)
      q hq
    simp only [if_true] at hb
    obtain ⟨⟨hmaj1, hmaj2⟩, hmin1, hmin2⟩ := hb
    have hq2 : q.2 ≠ y1 := by split_ifs at hmaj1 <;> omega
    refine ⟨?_, ?_, ?_, ?_, fun hEq => hq2 (by rw [hEq])⟩ <;>
      split_ifs at hmaj1 hmaj2 hmin1 hmin2 <;> omega
  · simp only [bresRun, hst, if_false, decide_False] at h
    by_cases hxx : x0 = x1
    · subst hxx
      simp [bresLoop] at h
      subst h
      simp at hq
    · have habs : (0 : ℤ) ≤ |y1 - y0| := abs_nonneg _
      have hb := bresLoop_mem_bounds false (if x0 ≤ x1 then 1 else -1) (if y0 ≤ y1 then 1 else -1)
        |y1 - y0| |x1 - x0| x1 y1
        (by split_ifs <;> simp) (by split_ifs <;> simp) habs (by omega)
        (x1 - x0).natAbs x0 y0 (-|x1 - x0|) L h
        (by rw [sign_mul_sub, Int.abs_eq_natAbs])
        (by have := abs_pos.mpr (sub_ne_zero.mpr (Ne.symm hxx)); omega) (by omega)
        (by rw [sign_mul_sub, ← Int.abs_eq_natAbs]; ring)
        q hq
      simp only [Bool.false_eq_true, if_false] at hb
      obtain ⟨⟨hmaj1, hmaj2⟩, hmin1, hmin2⟩ := hb
      have hq1 : q.1 ≠ x1 := by split_ifs at hmaj1 <;> omega
      refine ⟨?_, ?_, ?_, ?_, fun hEq => hq1 (by rw [hEq])⟩ <;>
        split_ifs at hmaj1 hmaj2 hmin1 hmin2 <;> omega

lemma bresRun_isSome (x0 y0 x1 y1 : ℤ) : (bresRun x0 y0 x1 y1).isSome := by
  by_cases hst : |x1 - x0| < |y1 - y0|
  · simp only [bresRun, hst, if_true, decide_True]
    exact bresLoop_isSome true _ _ _ _ y1 (by split_ifs <;> simp) _ y0 x0 _
      (by rw [sign_mul_sub, Int.abs_eq_natAbs])
  · simp only [bresRun, hst, if_false, decide_False]
    exact bresLoop_isSome false _ _ _ _ x1 (by split_ifs <;> simp) _ x0 y0 _
      (by rw [sign_mul_sub, Int.abs_eq_natAbs])

lemma draw_line_without_clip_eq (x0 y0 x1 y1 : ℤ) (L : List (ℤ × ℤ))
    (h : bresRun x0 y0 x1 y1 = some L) : draw_line_without_clip x0 y0 x1 y1 = L := by
  unfold draw_line_without_clip
  rw [h]
  rfl

lemma draw_line_without_clip_box (x0 y0 x1 y1 : ℤ) :
    ∀ q ∈ draw_line_without_clip x0 y0 x1 y1,
      min x0 x1 ≤ q.1 ∧ q.1 ≤ max x0 x1 ∧
      min y0 y1 ≤ q.2 ∧ q.2 ≤ max y0 y1 ∧ q ≠ (x1, y1) := by
  obtain ⟨L, hL⟩ := Option.isSome_iff_exists.mp (bresRun_isSome x0 y0 x1 y1)
  rw [draw_line_without_clip_eq x0 y0 x1 y1 L hL]
  exact bresRun_writes x0 y0 x1 y1 L hL

lemma draw_line_without_clip_degenerate (x0 y0 : ℤ) :
    draw_line_without_clip x0 y0 x0 y0 = [] := by
  simp [draw_line_without_clip, bresRun, bresLoop]

/-- C3: the line rasterizer writes exactly one pixel per major-axis grid
step (`max |dx| |dy|` pixels) and never writes the final endpoint pixel
(`while x != final_x`); in particular the horizontal line from `(0,0)` to
`(5,0)` writes exactly the five pixels `(0,0) … (4,0)` and nothing at
`x = 5`. -/
theorem line_rasterizer_final_pixel_omitted :
    (∀ x0 y0 x1 y1 : ℤ,
      ((draw_line_without_clip x0 y0 x1 y1).length : ℤ) = max |x1 - x0| |y1 - y0| ∧
      (x1, y1) ∉ draw_line_without_clip x0 y0 x1 y1) ∧
    draw_line_without_clip 0 0 5 0 = [(0, 0), (1, 0), (2, 0), (3, 0), (4, 0)] := by
  refine ⟨fun x0 y0 x1 y1 => ⟨?_, ?_⟩, by decide⟩
  · obtain ⟨L, hL⟩ := Option.isSome_iff_exists.mp (bresRun_isSome x0 y0 x1 y1)
    rw [draw_line_without_clip_eq x0 y0 x1 y1 L hL]
    by_cases hst : |x1 - x0| < |y1 - y0|
    · simp only [bresRun, hst, if_true, decide_True] at hL
      have := bresLoop_length true _ _ _ _ y1 (by split_ifs <;> simp) _ y0 x0 _ L hL
        (by rw [sign_mul_sub, Int.abs_eq_natAbs])
      rw [max_eq_right (le_of_lt hst), Int.abs_eq_natAbs]
      omega
    · simp only [bresRun, hst, if_false, decide_False] at hL
      have := bresLoop_length false _ _ _ _ x1 (by split_ifs <;> simp) _ x0 y0 _ L hL
        (by rw [sign_mul_sub, Int.abs_eq_natAbs])
      rw [max_eq_left (by omega), Int.abs_eq_natAbs]
      omega
  · intro hmem
    exact (draw_line_without_clip_box x0 y0 x1 y1 (x1, y1) hmem).2.2.2.2 rfl

/-- C10: a `draw_line` call whose clipped endpoints truncate to the same
integer point writes no pixel at all — `dx = dy = 0` makes `x != final_x`
false on entry — and in general a degenerate integer segment writes nothing. -/
theorem degenerate_segment_no_pixels :
    (∀ (w h : ℕ) (p1 p2 q1 q2 : Vec2),
      clipLoop p1 (0, 0) ((w : ℚ) - 1, (h : ℚ) - 1) 6 p1 p2 = some (some (q1, q2)) →
      rustTrunc q1.1 = rustTrunc q2.1 → rustTrunc q1.2 = rustTrunc q2.2 →
      draw_line w h p1 p2 = []) ∧
    ∀ x0 y0 : ℤ, draw_line_without_clip x0 y0 x0 y0 = [] := by
  constructor
  · intro w h p1 p2 q1 q2 hclip htx hty
    simp only [draw_line, hclip]
    rw [htx, hty]
    exact draw_line_without_clip_degenerate _ _
  · exact draw_line_without_clip_degenerate

theorem degenerate_segment_no_pixels_witness :
    draw_line 100 100 (3, 4) (3, 4) = [] := by
  have hoc : compute_outcode ((3 : ℚ), 4) (0, 0) ((100 : ℚ) - 1, (100 : ℚ) - 1) = 0 := by
    norm_num [compute_outcode, ocx, ocy]
  exact degenerate_segment_no_pixels.1 100 100 (3, 4) (3, 4) (3, 4) (3, 4)
    (clipLoop_accept _ _ _ _ _ 6 hoc hoc) rfl rfl

/-! ## Termination of the clipping loop: a decreasing measure -/

lemma ocx_le_two (p mn mx : Vec2) : ocx p mn mx ≤ 2 := by
  unfold ocx
  split_ifs <;> omega

lemma ocy_mem (p mn mx : Vec2) : ocy p mn mx = 0 ∨ ocy p mn mx = 4 ∨ ocy p mn mx = 8 := by
  unfold ocy
  split_ifs <;> simp

lemma code_band (xc yc : ℕ) (hx : xc ≤ 2) (hy : yc = 0 ∨ yc = 4 ∨ yc = 8) :
    ((xc + yc) &&& 8 = if yc = 8 then 8 else 0) ∧
    ((xc + yc) &&& 4 = if yc = 4 then 4 else 0) ∧
    ((xc + yc) &&& 2 = if xc = 2 then 2 else 0) ∧
    ((xc + yc) &&& 1 = if xc = 1 then 1 else 0) := by
  interval_cases xc <;> rcases hy with rfl | rfl | rfl <;> decide

lemma land_code_facts (a b c d : ℕ) (ha : a ≤ 2) (hb : b = 0 ∨ b = 4 ∨ b = 8)
    (hc : c ≤ 2) (hd : d = 0 ∨ d = 4 ∨ d = 8) (h : (a + b) &&& (c + d) = 0) :
    ¬(a = 1 ∧ c = 1) ∧ ¬(a = 2 ∧ c = 2) ∧ ¬(b = 4 ∧ d = 4) ∧ ¬(b = 8 ∧ d = 8) := by
  revert h
  interval_cases a <;> interval_cases c <;> rcases hb with rfl | rfl | rfl <;>
    rcases hd with rfl | rfl | rfl <;> decide

lemma t_between (a b c : ℚ) (hab : a ≠ b) (hbet : (c - a) * (c - b) ≤ 0) :
    0 ≤ (c - a) / (b - a) ∧ (c - a) / (b - a) ≤ 1 := by
  rcases lt_or_gt_of_ne hab with h | h
  · have hca : a ≤ c := by nlinarith
    have hcb : c ≤ b := by nlinarith
    exact ⟨div_nonneg (by linarith) (by linarith),
      (div_le_one (by linarith)).mpr (by linarith)⟩
  · have hca : c ≤ a := by nlinarith
    have hcb : b ≤ c := by nlinarith
    constructor
    · rw [div_nonneg_iff]
      right
      exact ⟨by linarith, by linarith⟩
    · rw [div_le_one_iff]
      right; right
      exact ⟨by linarith, by linarith⟩

lemma interp_mem (u v t lo hi : ℚ) (hu1 : lo ≤ u) (hu2 : u ≤ hi) (hv1 : lo ≤ v)
    (hv2 : v ≤ hi) (ht0 : 0 ≤ t) (ht1 : t ≤ 1) :
    lo ≤ u + (v - u) * t ∧ u + (v - u) * t ≤ hi := by
  constructor <;> nlinarith

lemma rl_replacement_inside (mn mx pt1 pt2 : Vec2) (c : ℚ)
    (hmn1 : mn.1 ≤ mx.1)
    (hc1 : mn.1 ≤ c) (hc2 : c ≤ mx.1)
    (hy1a : mn.2 ≤ pt1.2) (hy1b : pt1.2 ≤ mx.2)
    (hy2a : mn.2 ≤ pt2.2) (hy2b : pt2.2 ≤ mx.2)
    (hne : pt1.1 ≠ pt2.1) (hbet : (c - pt1.1) * (c - pt2.1) ≤ 0) :
    compute_outcode (c, pt1.2 + (pt2.2 - pt1.2) * (c - pt1.1) / (pt2.1 - pt1.1)) mn mx = 0 := by
  rw [compute_outcode_eq_zero_iff]
  have ht := t_between pt1.1 pt2.1 c hne hbet
  have hi := interp_mem pt1.2 pt2.2 ((c - pt1.1) / (pt2.1 - pt1.1)) mn.2 mx.2
    hy1a hy1b hy2a hy2b ht.1 ht.2
  refine ⟨hc1, hc2, ?_, ?_⟩ <;> rw [mul_div_assoc] <;> simp only [] <;>
    [exact hi.1; exact hi.2]

lemma ocy_boundary_y (mn mx : Vec2) (hmn2 : mn.2 ≤ mx.2) (x b : ℚ)
    (hb1 : mn.2 ≤ b) (hb2 : b ≤ mx.2) : ocy (x, b) mn mx = 0 := by
  unfold ocy
  split_ifs with h1 h2
  · exfalso; simp at h1; linarith
  · exfalso; simp at h2; linarith
  · rfl

lemma ptMeasure_le_three (mn mx p : Vec2) : ptMeasure mn mx p ≤ 3 := by
  unfold ptMeasure
  split_ifs <;> omega

lemma ocx_mem (p mn mx : Vec2) : ocx p mn mx = 0 ∨ ocx p mn mx = 1 ∨ ocx p mn mx = 2 := by
  unfold ocx
  split_ifs <;> simp

lemma clipStep_eq (p1 mn mx pt1 pt2 : Vec2) :
    clipStep p1 mn mx pt1 pt2 =
      if compute_outcode pt1 mn mx < compute_outcode pt2 mn mx
      then (pt1, clipReplacement p1 mn mx pt1 pt2)
      else (clipReplacement p1 mn mx pt1 pt2, pt2) := by
  simp only [clipStep]
  by_cases h : compute_outcode pt1 mn mx < compute_outcode pt2 mn mx
  · rw [if_pos h, if_pos h, if_neg (by omega)]
  · rw [if_neg h, if_neg h, if_pos rfl]

lemma clipReplacement_eq_sel2 (p1 mn mx pt1 pt2 : Vec2)
    (hlt : compute_outcode pt1 mn mx < compute_outcode pt2 mn mx) :
    clipReplacement p1 mn mx pt1 pt2 =
      if ocy pt2 mn mx = 8 then
        (p1.1 + (pt2.1 - pt1.1) * (mx.2 - pt1.2) / (pt2.2 - pt1.2), mx.2)
      else if ocy pt2 mn mx = 4 then
        (p1.1 + (pt2.1 - pt1.1) * (mn.2 - pt1.2) / (pt2.2 - pt1.2), mn.2)
      else if ocx pt2 mn mx = 2 then
        (mx.1, pt1.2 + (pt2.2 - pt1.2) * (mx.1 - pt1.1) / (pt2.1 - pt1.1))
      else if ocx pt2 mn mx = 1 then
        (mn.1, pt1.2 + (pt2.2 - pt1.2) * (mn.1 - pt1.1) / (pt2.1 - pt1.1))
      else (0, 0) := by
  simp only [clipReplacement, if_pos hlt]
  rw [compute_outcode_eq_add pt2 mn mx]
  obtain ⟨h8, h4, h2, h1⟩ := code_band (ocx pt2 mn mx) (ocy pt2 mn mx)
    (ocx_le_two pt2 mn mx) (ocy_mem pt2 mn mx)
  rw [h8, h4, h2, h1]
  rcases ocy_mem pt2 mn mx with hY | hY | hY <;>
    rcases ocx_mem pt2 mn mx with hX | hX | hX <;> rw [hY, hX] <;> norm_num

lemma clipReplacement_eq_sel1 (p1 mn mx pt1 pt2 : Vec2)
    (hge : ¬ compute_outcode pt1 mn mx < compute_outcode pt2 mn mx) :
    clipReplacement p1 mn mx pt1 pt2 =
      if ocy pt1 mn mx = 8 then
        (p1.1 + (pt2.1 - pt1.1) * (mx.2 - pt1.2) / (pt2.2 - pt1.2), mx.2)
      else if ocy pt1 mn mx = 4 then
        (p1.1 + (pt2.1 - pt1.1) * (mn.2 - pt1.2) / (pt2.2 - pt1.2), mn.2)
      else if ocx pt1 mn mx = 2 then
        (mx.1, pt1.2 + (pt2.2 - pt1.2) * (mx.1 - pt1.1) / (pt2.1 - pt1.1))
      else if ocx pt1 mn mx = 1 then
        (mn.1, pt1.2 + (pt2.2 - pt1.2) * (mn.1 - pt1.1) / (pt2.1 - pt1.1))
      else (0, 0) := by
  simp only [clipReplacement, if_neg hge]
  rw [compute_outcode_eq_add pt1 mn mx]
  obtain ⟨h8, h4, h2, h1⟩ := code_band (ocx pt1 mn mx) (ocy pt1 mn mx)
    (ocx_le_two pt1 mn mx) (ocy_mem pt1 mn mx)
  rw [h8, h4, h2, h1]
  rcases ocy_mem pt1 mn mx with hY | hY | hY <;>
    rcases ocx_mem pt1 mn mx with hX | hX | hX <;> rw [hY, hX] <;> norm_num

lemma stMeasure_lt_left (mn mx pt1 pt2 p : Vec2)
    (hnew : ptMeasure mn mx p < ptMeasure mn mx pt1) :
    stMeasure mn mx (p, pt2) < stMeasure mn mx (pt1, pt2) := by
  simp only [stMeasure]
  omega

lemma stMeasure_lt_right (mn mx pt1 pt2 p : Vec2)
    (hnew : ptMeasure mn mx p < ptMeasure mn mx pt2) :
    stMeasure mn mx (pt1, p) < stMeasure mn mx (pt1, pt2) := by
  simp only [stMeasure]
  omega

lemma ptMeasure_lt_tb (mn mx pold p : Vec2) (hold : ocy pold mn mx ≠ 0)
    (hnew : ocy p mn mx = 0) : ptMeasure mn mx p < ptMeasure mn mx pold := by
  have hco : compute_outcode pold mn mx ≠ 0 := by
    rw [compute_outcode_eq_add]
    rcases ocy_mem pold mn mx with h | h | h <;> omega
  unfold ptMeasure
  rw [if_pos hnew, if_neg hold, if_neg hco]
  split_ifs <;> omega

lemma ptMeasure_lt_rl (mn mx pold p : Vec2) (hold : compute_outcode pold mn mx ≠ 0)
    (hnew : compute_outcode p mn mx = 0) : ptMeasure mn mx p < ptMeasure mn mx pold := by
  have hocy : ocy p mn mx = 0 := by
    have h := compute_outcode_eq_add p mn mx
    omega
  unfold ptMeasure
  rw [if_pos hocy, if_pos hnew, if_neg hold]
  split_ifs <;> omega

theorem clipStep_measure_lt (p1 mn mx pt1 pt2 : Vec2)
    (hmn1 : mn.1 ≤ mx.1) (hmn2 : mn.2 ≤ mx.2)
    (hand : compute_outcode pt1 mn mx &&& compute_outcode pt2 mn mx = 0)
    (hor : compute_outcode pt1 mn mx ||| compute_outcode pt2 mn mx ≠ 0) :
    stMeasure mn mx (clipStep p1 mn mx pt1 pt2) < stMeasure mn mx (pt1, pt2) := by
  have hA := compute_outcode_eq_add pt1 mn mx
  have hB := compute_outcode_eq_add pt2 mn mx
  have hland := land_code_facts (ocx pt1 mn mx) (ocy pt1 mn mx) (ocx pt2 mn mx)
    (ocy pt2 mn mx) (ocx_le_two pt1 mn mx) (ocy_mem pt1 mn mx) (ocx_le_two pt2 mn mx)
    (ocy_mem pt2 mn mx) (by rw [hA, hB] at hand; exact hand)
  rw [clipStep_eq]
  by_cases hlt : compute_outcode pt1 mn mx < compute_outcode pt2 mn mx
  · rw [if_pos hlt, clipReplacement_eq_sel2 p1 mn mx pt1 pt2 hlt]
    refine stMeasure_lt_right mn mx pt1 pt2 _ ?_
    rcases ocy_mem pt2 mn mx with hY | hY | hY
    · -- selected pt2 has no TOP/BOTTOM bit: LEFT/RIGHT replacement
      rw [if_neg (by omega), if_neg (by omega)]
      have hy2reg : mn.2 ≤ pt2.2 ∧ pt2.2 ≤ mx.2 := by
        rcases ocy_cases pt2 mn mx with ⟨-, h1, h2⟩ | ⟨hc, -⟩ | ⟨hc, -, -⟩
        · exact ⟨h1, h2⟩
        · omega
        · omega
      have hxle1 := ocx_le_two pt1 mn mx
      have hxle2 := ocx_le_two pt2 mn mx
      have hy1z : ocy pt1 mn mx = 0 := by
        rcases ocy_mem pt1 mn mx with h | h | h
        · exact h
        · omega
        · omega
      have hy1reg : mn.2 ≤ pt1.2 ∧ pt1.2 ≤ mx.2 := by
        rcases ocy_cases pt1 mn mx with ⟨-, h1, h2⟩ | ⟨hc, -⟩ | ⟨hc, -, -⟩
        · exact ⟨h1, h2⟩
        · omega
        · omega
      have hx1small : ocx pt1 mn mx ≤ 1 := by omega
      have hx1ub : pt1.1 ≤ mx.1 := by
        rcases ocx_cases pt1 mn mx with ⟨-, -, h⟩ | ⟨-, h⟩ | ⟨hc, -, -⟩
        · exact h
        · linarith
        · omega
      rcases ocx_mem pt2 mn mx with hX | hX | hX
      · omega
      · -- LEFT
        rw [if_neg (by omega), if_pos hX]
        have hx2reg : pt2.1 < mn.1 := by
          rcases ocx_cases pt2 mn mx with ⟨hc, -⟩ | ⟨-, h⟩ | ⟨hc, -, -⟩
          · omega
          · exact h
          · omega
        have hx1ge : mn.1 ≤ pt1.1 := by
          have hx1z : ocx pt1 mn mx = 0 := by omega
          rcases ocx_cases pt1 mn mx with ⟨-, h, -⟩ | ⟨hc, -⟩ | ⟨hc, -, -⟩
          · exact h
          · omega
          · omega
        refine ptMeasure_lt_rl mn mx pt2 _ (by omega) ?_
        exact rl_replacement_inside mn mx pt1 pt2 mn.1 hmn1 le_rfl hmn1
          hy1reg.1 hy1reg.2 hy2reg.1 hy2reg.2
          (fun he => by rw [he] at hx1ge; linarith)
          (mul_nonpos_iff.mpr (Or.inr ⟨by linarith, by linarith⟩))
      · -- RIGHT
        rw [if_pos hX]
        have hx2reg : mx.1 < pt2.1 := by
          rcases ocx_cases pt2 mn mx with ⟨hc, -⟩ | ⟨hc, -⟩ | ⟨-, -, h⟩
          · omega
          · omega
          · exact h
        refine ptMeasure_lt_rl mn mx pt2 _ (by omega) ?_
        exact rl_replacement_inside mn mx pt1 pt2 mx.1 hmn1 hmn1 le_rfl
          hy1reg.1 hy1reg.2 hy2reg.1 hy2reg.2
          (fun he => by rw [he] at hx1ub; linarith)
          (mul_nonpos_iff.mpr (Or.inl ⟨by linarith, by linarith⟩))
    · -- BOTTOM replacement on pt2
      rw [if_neg (by omega), if_pos hY]
      exact ptMeasure_lt_tb mn mx pt2 _ (by omega)
        (ocy_boundary_y mn mx hmn2 _ mn.2 le_rfl hmn2)
    · -- TOP replacement on pt2
      rw [if_pos hY]
      exact ptMeasure_lt_tb mn mx pt2 _ (by omega)
        (ocy_boundary_y mn mx hmn2 _ mx.2 hmn2 le_rfl)
  · rw [if_neg hlt, clipReplacement_eq_sel1 p1 mn mx pt1 pt2 hlt]
    refine stMeasure_lt_left mn mx pt1 pt2 _ ?_
    have hAne : compute_outcode pt1 mn mx ≠ 0 := by
      intro h0
      have hB0 : compute_outcode pt2 mn mx = 0 := by omega
      exact hor (by rw [h0, hB0]; rfl)
    rcases ocy_mem pt1 mn mx with hY | hY | hY
    · -- selected pt1 has no TOP/BOTTOM bit: LEFT/RIGHT replacement
      rw [if_neg (by omega), if_neg (by omega)]
      have hxle1 := ocx_le_two pt1 mn mx
      have hxle2 := ocx_le_two pt2 mn mx
      have hy1reg : mn.2 ≤ pt1.2 ∧ pt1.2 ≤ mx.2 := by
        rcases ocy_cases pt1 mn mx with ⟨-, h1, h2⟩ | ⟨hc, -⟩ | ⟨hc, -, -⟩
        · exact ⟨h1, h2⟩
        · omega
        · omega
      have hy2z : ocy pt2 mn mx = 0 := by
        rcases ocy_mem pt2 mn mx with h | h | h
        · exact h
        · omega
        · omega
      have hy2reg : mn.2 ≤ pt2.2 ∧ pt2.2 ≤ mx.2 := by
        rcases ocy_cases pt2 mn mx with ⟨-, h1, h2⟩ | ⟨hc, -⟩ | ⟨hc, -, -⟩
        · exact ⟨h1, h2⟩
        · omega
        · omega
      rcases ocx_mem pt1 mn mx with hX | hX | hX
      · omega
      · -- LEFT
        rw [if_neg (by omega), if_pos hX]
        have hx1reg : pt1.1 < mn.1 := by
          rcases ocx_cases pt1 mn mx with ⟨hc, -⟩ | ⟨-, h⟩ | ⟨hc, -, -⟩
          · omega
          · exact h
          · omega
        have hx2ge : mn.1 ≤ pt2.1 := by
          have hx2ne : ocx pt2 mn mx ≠ 1 := fun hc => hland.1 ⟨hX, hc⟩
          rcases ocx_cases pt2 mn mx with ⟨-, h, -⟩ | ⟨hc, -⟩ | ⟨-, h, -⟩
          · exact h
          · omega
          · exact h
        refine ptMeasure_lt_rl mn mx pt1 _ hAne ?_
        exact rl_replacement_inside mn mx pt1 pt2 mn.1 hmn1 le_rfl hmn1
          hy1reg.1 hy1reg.2 hy2reg.1 hy2reg.2
          (fun he => by rw [he] at hx1reg; linarith)
          (mul_nonpos_iff.mpr (Or.inl ⟨by linarith, by linarith⟩))
      · -- RIGHT
        rw [if_pos hX]
        have hx1reg : mx.1 < pt1.1 := by
          rcases ocx_cases pt1 mn mx with ⟨hc, -⟩ | ⟨hc, -⟩ | ⟨-, -, h⟩
          · omega
          · omega
          · exact h
        have hx2le : pt2.1 ≤ mx.1 := by
          have hx2ne : ocx pt2 mn mx ≠ 2 := fun hc => hland.2.1 ⟨hX, hc⟩
          rcases ocx_cases pt2 mn mx with ⟨-, -, h⟩ | ⟨-, h⟩ | ⟨hc, -, -⟩
          · exact h
          · linarith
          · omega
        refine ptMeasure_lt_rl mn mx pt1 _ hAne ?_
        exact rl_replacement_inside mn mx pt1 pt2 mx.1 hmn1 hmn1 le_rfl
          hy1reg.1 hy1reg.2 hy2reg.1 hy2reg.2
          (fun he => by rw [he] at hx1reg; linarith)
          (mul_nonpos_iff.mpr (Or.inr ⟨by linarith, by linarith⟩))
    · -- BOTTOM replacement on pt1
      rw [if_neg (by omega), if_pos hY]
      exact ptMeasure_lt_tb mn mx pt1 _ (by omega)
        (ocy_boundary_y mn mx hmn2 _ mn.2 le_rfl hmn2)
    · -- TOP replacement on pt1
      rw [if_pos hY]
      exact ptMeasure_lt_tb mn mx pt1 _ (by omega)
        (ocy_boundary_y mn mx hmn2 _ mx.2 hmn2 le_rfl)

lemma ptMeasure_pos (mn mx p : Vec2) (h : compute_outcode p mn mx ≠ 0) :
    1 ≤ ptMeasure mn mx p := by
  unfold ptMeasure
  rw [if_neg h]
  split_ifs <;> omega

lemma clipLoop_isSome_of_measure (p1 mn mx : Vec2)
    (hmn1 : mn.1 ≤ mx.1) (hmn2 : mn.2 ≤ mx.2) :
    ∀ (fuel : ℕ) (pt1 pt2 : Vec2), stMeasure mn mx (pt1, pt2) ≤ fuel →
      (clipLoop p1 mn mx fuel pt1 pt2).isSome := by
  intro fuel
  induction fuel with
  | zero =>
    intro pt1 pt2 hle
    by_cases hand : compute_outcode pt1 mn mx &&& compute_outcode pt2 mn mx = 0
    · by_cases hor : compute_outcode pt1 mn mx ||| compute_outcode pt2 mn mx = 0
      · obtain ⟨h1, h2⟩ := (natLor_eq_zero_iff _ _).mp hor
        rw [clipLoop_accept p1 mn mx pt1 pt2 0 h1 h2]
        rfl
      · exfalso
        have hne : ¬(compute_outcode pt1 mn mx = 0 ∧ compute_outcode pt2 mn mx = 0) :=
          fun ⟨a, b⟩ => hor (by rw [a, b]; rfl)
        have h1 : 1 ≤ stMeasure mn mx (pt1, pt2) := by
          rcases not_and_or.mp hne with h | h
          · have := ptMeasure_pos mn mx pt1 h
            simp only [stMeasure]
            omega
          · have := ptMeasure_pos mn mx pt2 h
            simp only [stMeasure]
            omega
        omega
    · rw [clipLoop_reject p1 mn mx pt1 pt2 0 hand]
      rfl
  | succ n ih =>
    intro pt1 pt2 hle
    by_cases hand : compute_outcode pt1 mn mx &&& compute_outcode pt2 mn mx = 0
    · by_cases hor : compute_outcode pt1 mn mx ||| compute_outcode pt2 mn mx = 0
      · obtain ⟨h1, h2⟩ := (natLor_eq_zero_iff _ _).mp hor
        rw [clipLoop_accept p1 mn mx pt1 pt2 (n + 1) h1 h2]
        rfl
      · rw [clipLoop_cont p1 mn mx pt1 pt2 n hand hor]
        apply ih
        have hlt := clipStep_measure_lt p1 mn mx pt1 pt2 hmn1 hmn2 hand hor
        have he : ((clipStep p1 mn mx pt1 pt2).1, (clipStep p1 mn mx pt1 pt2).2)
            = clipStep p1 mn mx pt1 pt2 := rfl
        rw [he]
        omega
    · rw [clipLoop_reject p1 mn mx pt1 pt2 (n + 1) hand]
      rfl

lemma stMeasure_le_six (mn mx : Vec2) (s : Vec2 × Vec2) : stMeasure mn mx s ≤ 6 := by
  have h1 := ptMeasure_le_three mn mx s.1
  have h2 := ptMeasure_le_three mn mx s.2
  unfold stMeasure
  omega

lemma scanGo_isSome (w : ℕ) (yc : ℤ) (st : Vec2) :
    ∀ (n : ℕ) (width : ℚ) (v : Vec2), ⌈width⌉.toNat ≤ n →
      (scanGo w yc st n width v).isSome := by
  intro n
  induction n with
  | zero =>
    intro width v hle
    by_cases h : 0 < width
    · exfalso
      have h1 : 0 < ⌈width⌉ := Int.ceil_pos.mpr h
      omega
    · simp [scanGo, h]
  | succ n ih =>
    intro width v hle
    by_cases h : 0 < width
    · simp only [scanGo, if_pos h, Option.isSome_map']
      apply ih
      have hc : ⌈width - 1⌉ = ⌈width⌉ - 1 := by
        rw [Int.ceil_sub_one]
      omega
    · simp [scanGo, h]

/-- C6: every loop of the renderer terminates.  The Cohen–Sutherland loop
exits within 6 iterations for every rectangle with `min ≤ max` and ANY real
endpoint coordinates (a strictly decreasing measure: a pending TOP/BOTTOM
violation of a working point costs 2, any remaining violation costs 1); the
Bresenham loop runs exactly `|final_x - x0|` iterations; the scanline loop
runs `⌈width⌉` iterations. -/
theorem all_rendering_loops_terminate :
    (∀ p1 mn mx pt1 pt2 : Vec2, mn.1 ≤ mx.1 → mn.2 ≤ mx.2 →
      (clipLoop p1 mn mx 6 pt1 pt2).isSome) ∧
    (∀ x0 y0 x1 y1 : ℤ, (bresRun x0 y0 x1 y1).isSome) ∧
    (∀ (w : ℕ) (yc : ℤ) (st : Vec2) (width : ℚ) (v : Vec2),
      (scanGo w yc st ⌈width⌉.toNat width v).isSome) := by
  refine ⟨fun p1 mn mx pt1 pt2 hmn1 hmn2 => ?_, bresRun_isSome,
    fun w yc st width v => scanGo_isSome w yc st ⌈width⌉.toNat width v le_rfl⟩
  exact clipLoop_isSome_of_measure p1 mn mx hmn1 hmn2 6 pt1 pt2
    (stMeasure_le_six mn mx (pt1, pt2))

theorem all_rendering_loops_terminate_witness :
    (clipLoop ((0 : ℚ), (0 : ℚ)) (0, 0) (9, 9) 6 (-5, 20) (30, -7)).isSome ∧
    (bresRun 0 0 5 3).isSome ∧
    (scanGo 10 2 (1, 0) ⌈(7 / 2 : ℚ)⌉.toNat (7 / 2) (0, 0)).isSome :=
  ⟨all_rendering_loops_terminate.1 (0, 0) (0, 0) (9, 9) (-5, 20) (30, -7)
      (by norm_num) (by norm_num),
    all_rendering_loops_terminate.2.1 0 0 5 3,
    all_rendering_loops_terminate.2.2 10 2 (1, 0) (7 / 2) (0, 0)⟩

/-! ## C4: every pixel write stays inside the buffer -/

lemma scanGo_writes (w : ℕ) (yc : ℤ) (st : Vec2) :
    ∀ (n : ℕ) (width : ℚ) (v : Vec2) (L : List (ℤ × ℤ)),
      scanGo w yc st n width v = some L →
      ∀ q ∈ L, 0 ≤ q.1 ∧ q.1 < (w : ℤ) ∧ q.2 = yc := by
  intro n
  induction n with
  | zero =>
    intro width v L hL q hq
    by_cases h : 0 < width
    · rw [scanGo, if_pos h] at hL
      exact absurd hL (by simp)
    · rw [scanGo, if_neg h] at hL
      rw [← Option.some.injEq] at hL
      simp at hL
      subst hL
      simp at hq
  | succ n ih =>
    intro width v L hL q hq
    by_cases h : 0 < width
    · rw [scanGo, if_pos h] at hL
      obtain ⟨L', hL', rfl⟩ := Option.map_eq_some'.mp hL
      rcases List.mem_append.mp hq with hq1 | hq2
      · by_cases hg : 0 ≤ v.1 ∧ v.1 < (w : ℚ)
        · rw [if_pos hg] at hq1
          simp at hq1
          subst hq1
          refine ⟨Int.floor_nonneg.mpr hg.1, ?_, rfl⟩
          exact Int.floor_lt.mpr (by exact_mod_cast hg.2)
        · rw [if_neg hg] at hq1
          simp at hq1
      · exact ih (width - 1) (v + st) L' hL' q hq2
    · rw [scanGo, if_neg h] at hL
      rw [← Option.some.injEq] at hL
      simp at hL
      subst hL
      simp at hq

lemma draw_scanline_writes (w : ℕ) (sl : Scanline) :
    ∀ q ∈ draw_scanline w sl, 0 ≤ q.1 ∧ q.1 < (w : ℤ) ∧ q.2 = i32AsU32 sl.y := by
  intro q hq
  obtain ⟨L, hL⟩ := Option.isSome_iff_exists.mp
    (scanGo_isSome w (i32AsU32 sl.y) sl.step ⌈sl.width⌉.toNat sl.width sl.vertex le_rfl)
  unfold draw_scanline at hq
  rw [hL] at hq
  exact scanGo_writes w (i32AsU32 sl.y) sl.step ⌈sl.width⌉.toNat sl.width sl.vertex L hL q hq

lemma clipLoop_accepts_inside (p1 mn mx : Vec2) :
    ∀ (fuel : ℕ) (pt1 pt2 q1 q2 : Vec2),
      clipLoop p1 mn mx fuel pt1 pt2 = some (some (q1, q2)) →
      compute_outcode q1 mn mx = 0 ∧ compute_outcode q2 mn mx = 0 := by
  intro fuel
  induction fuel with
  | zero =>
    intro pt1 pt2 q1 q2 hres
    by_cases hand : compute_outcode pt1 mn mx &&& compute_outcode pt2 mn mx = 0
    · by_cases hor : compute_outcode pt1 mn mx ||| compute_outcode pt2 mn mx = 0
      · obtain ⟨h1, h2⟩ := (natLor_eq_zero_iff _ _).mp hor
        rw [clipLoop_accept p1 mn mx pt1 pt2 0 h1 h2] at hres
        simp at hres
        rw [← hres.1, ← hres.2]
        exact ⟨h1, h2⟩
      · rw [show clipLoop p1 mn mx 0 pt1 pt2 =
            (if compute_outcode pt1 mn mx &&& compute_outcode pt2 mn mx ≠ 0 then some none
            else if compute_outcode pt1 mn mx ||| compute_outcode pt2 mn mx = 0 then
              some (some (pt1, pt2)) else none) from rfl,
          if_neg (by simp [hand]), if_neg hor] at hres
        simp at hres
    · rw [clipLoop_reject p1 mn mx pt1 pt2 0 hand] at hres
      simp at hres
  | succ n ih =>
    intro pt1 pt2 q1 q2 hres
    by_cases hand : compute_outcode pt1 mn mx &&& compute_outcode pt2 mn mx = 0
    · by_cases hor : compute_outcode pt1 mn mx ||| compute_outcode pt2 mn mx = 0
      · obtain ⟨h1, h2⟩ := (natLor_eq_zero_iff _ _).mp hor
        rw [clipLoop_accept p1 mn mx pt1 pt2 (n + 1) h1 h2] at hres
        simp at hres
        rw [← hres.1, ← hres.2]
        exact ⟨h1, h2⟩
      · rw [clipLoop_cont p1 mn mx pt1 pt2 n hand hor] at hres
        exact ih _ _ q1 q2 hres
    · rw [clipLoop_reject p1 mn mx pt1 pt2 (n + 1) hand] at hres
      simp at hres

lemma rustTrunc_bounds (q : ℚ) (z : ℤ) (h0 : 0 ≤ q) (hz : q ≤ (z : ℚ)) :
    0 ≤ rustTrunc q ∧ rustTrunc q ≤ z := by
  unfold rustTrunc
  rw [if_pos h0]
  refine ⟨Int.floor_nonneg.mpr h0, ?_⟩
  have := Int.floor_le_floor hz
  rwa [Int.floor_intCast] at this

lemma draw_line_eq_of_accept (w hgt : ℕ) (p1 p2 q1 q2 : Vec2)
    (hres : clipLoop p1 (0, 0) ((w : ℚ) - 1, (hgt : ℚ) - 1) 6 p1 p2 = some (some (q1, q2))) :
    draw_line w hgt p1 p2 =
      draw_line_without_clip (rustTrunc q1.1) (rustTrunc q1.2) (rustTrunc q2.1)
        (rustTrunc q2.2) := by
  unfold draw_line
  rw [hres]

/-- C4: every pixel write issued by the renderer lands inside the buffer.
The trapezoid fill re-checks only the X bound per pixel, the Y bound being
guaranteed by the scan-row range `[max(⌈top⌉,0), min(⌈bottom⌉,h-1)-1]`; the
line path relies on the clipper having bounded the coordinates to
`[0,w-1] × [0,h-1]` before truncation, and the Bresenham loop stays inside
the bounding box of its clipped endpoints.  `Scanline::from_trapezoid` is the
out-of-repository collaborator, abstracted as any function `sl` whose `y`
field is the queried row (its spec-modelled behaviour). -/
theorem pixel_writes_in_bounds :
    (∀ (w hgt : ℕ) (top bottom : ℚ) (sl : ℤ → Scanline), (∀ r, (sl r).y = r) →
      (hgt : ℤ) ≤ 4294967296 →
      ∀ q ∈ draw_trapezoid w hgt top bottom sl,
        0 ≤ q.1 ∧ q.1 < (w : ℤ) ∧ 0 ≤ q.2 ∧ q.2 < (hgt : ℤ)) ∧
    (∀ (w hgt : ℕ) (p1 p2 : Vec2), ∀ q ∈ draw_line w hgt p1 p2,
      0 ≤ q.1 ∧ q.1 < (w : ℤ) ∧ 0 ≤ q.2 ∧ q.2 < (hgt : ℤ)) := by
  constructor
  · intro w hgt top bottom sl hsl hh q hq
    unfold draw_trapezoid at hq
    obtain ⟨r, hr, hq2⟩ := List.mem_flatMap.mp hq
    have hrow := (trapRows_mem hgt top bottom r).mp hr
    have h1 := draw_scanline_writes w (sl r) q hq2
    have hr0 : (0 : ℤ) ≤ r := le_trans (le_max_right ⌈top⌉ 0) hrow.1
    have hrh : r ≤ min ⌈bottom⌉ ((hgt : ℤ) - 1) - 1 := hrow.2
    have hy : q.2 = r := by
      rw [h1.2.2, hsl r, i32AsU32]
      exact Int.emod_eq_of_lt hr0 (by omega)
    refine ⟨h1.1, h1.2.1, ?_, ?_⟩ <;> rw [hy] <;> omega
  · intro w hgt p1 p2 q hq
    rcases hres : clipLoop p1 (0, 0) ((w : ℚ) - 1, (hgt : ℚ) - 1) 6 p1 p2 with _ | op
    · unfold draw_line at hq
      rw [hres] at hq
      simp at hq
    · rcases op with _ | qq
      · unfold draw_line at hq
        rw [hres] at hq
        simp at hq
      · rcases qq with ⟨q1, q2⟩
        rw [draw_line_eq_of_accept w hgt p1 p2 q1 q2 hres] at hq
        obtain ⟨hq1z, hq2z⟩ :=
          clipLoop_accepts_inside p1 (0, 0) ((w : ℚ) - 1, (hgt : ℚ) - 1) 6 p1 p2 q1 q2 hres
        rw [compute_outcode_eq_zero_iff] at hq1z hq2z
        norm_num at hq1z hq2z
        have hw : ((w : ℚ) - 1) = (((w : ℤ) - 1 : ℤ) : ℚ) := by push_cast; ring
        have hhq : ((hgt : ℚ) - 1) = (((hgt : ℤ) - 1 : ℤ) : ℚ) := by push_cast; ring
        have t1 := rustTrunc_bounds q1.1 ((w : ℤ) - 1) hq1z.1 (by rw [← hw]; exact hq1z.2.1)
        have t2 := rustTrunc_bounds q1.2 ((hgt : ℤ) - 1) hq1z.2.2.1 (by rw [← hhq]; exact hq1z.2.2.2)
        have t3 := rustTrunc_bounds q2.1 ((w : ℤ) - 1) hq2z.1 (by rw [← hw]; exact hq2z.2.1)
        have t4 := rustTrunc_bounds q2.2 ((hgt : ℤ) - 1) hq2z.2.2.1 (by rw [← hhq]; exact hq2z.2.2.2)
        have hbox := draw_line_without_clip_box (rustTrunc q1.1) (rustTrunc q1.2)
          (rustTrunc q2.1) (rustTrunc q2.2) q hq
        obtain ⟨hb1, hb2, hb3, hb4, -⟩ := hbox
        refine ⟨?_, ?_, ?_, ?_⟩ <;> omega

lemma scanGo_succ (w : ℕ) (yc : ℤ) (st : Vec2) (n : ℕ) (width : ℚ) (v : Vec2)
    (h : 0 < width) :
    scanGo w yc st (n + 1) width v =
      Option.map (fun L => (if 0 ≤ v.1 ∧ v.1 < (w : ℚ) then [(⌊v.1⌋, yc)] else []) ++ L)
        (scanGo w yc st n (width - 1) (v + st)) := by
  rw [scanGo, if_pos h]

lemma scanGo_stop (w : ℕ) (yc : ℤ) (st : Vec2) (n : ℕ) (width : ℚ) (v : Vec2)
    (h : ¬ 0 < width) : scanGo w yc st n width v = some [] := by
  cases n <;> rw [scanGo, if_neg h]

theorem pixel_writes_in_bounds_witness :
    ((0 : ℤ) ≤ ((2 : ℤ), (0 : ℤ)).1 ∧ ((2 : ℤ), (0 : ℤ)).1 < ((10 : ℕ) : ℤ) ∧
      (0 : ℤ) ≤ ((2 : ℤ), (0 : ℤ)).2 ∧ ((2 : ℤ), (0 : ℤ)).2 < ((10 : ℕ) : ℤ)) ∧
    ((0 : ℤ) ≤ ((1 : ℤ), (1 : ℤ)).1 ∧ ((1 : ℤ), (1 : ℤ)).1 < ((100 : ℕ) : ℤ) ∧
      (0 : ℤ) ≤ ((1 : ℤ), (1 : ℤ)).2 ∧ ((1 : ℤ), (1 : ℤ)).2 < ((100 : ℕ) : ℤ)) := by
  constructor
  · have hrows : trapRows 10 (0 : ℚ) 1 = [0] := by
      unfold trapRows trapTopRow trapBottomRow
      rw [Int.ceil_zero, Int.ceil_one]
      decide
    have hs : draw_scanline 10 ⟨0, (2, 0), (1, 0), 1⟩ = [(2, 0)] := by
      unfold draw_scanline
      have hc : (⌈(1 : ℚ)⌉).toNat = 1 := by rw [Int.ceil_one]; rfl
      have hyc : i32AsU32 0 = 0 := by decide
      simp only [hc, hyc]
      rw [scanGo_succ 10 0 (1, 0) 0 1 (2, 0) (by norm_num),
        scanGo_stop 10 0 (1, 0) 0 (1 - 1) ((2, 0) + (1, 0)) (by norm_num)]
      rw [if_pos (by constructor <;> norm_num)]
      have hf : ⌊(2 : ℚ)⌋ = 2 := by
        rw [show (2 : ℚ) = ((2 : ℤ) : ℚ) by norm_num, Int.floor_intCast]
      simp [hf]
    have htrap : draw_trapezoid 10 10 0 1 (fun r => ⟨r, (2, 0), (1, 0), 1⟩) = [(2, 0)] := by
      unfold draw_trapezoid
      rw [hrows]
      simp only [List.flatMap_cons, List.flatMap_nil, List.append_nil]
      exact hs
    exact pixel_writes_in_bounds.1 10 10 0 1 (fun r => ⟨r, (2, 0), (1, 0), 1⟩)
      (fun r => rfl) (by norm_num) (2, 0) (by rw [htrap]; simp)
  · have ho1 : compute_outcode ((1 : ℚ), 1) (0, 0) ((100 : ℚ) - 1, (100 : ℚ) - 1) = 0 := by
      norm_num [compute_outcode, ocx, ocy]
    have ho2 : compute_outcode ((4 : ℚ), 3) (0, 0) ((100 : ℚ) - 1, (100 : ℚ) - 1) = 0 := by
      norm_num [compute_outcode, ocx, ocy]
    have hacc := clipLoop_accept ((1 : ℚ), (1 : ℚ)) (0, 0) ((100 : ℚ) - 1, (100 : ℚ) - 1)
      (1, 1) (4, 3) 6 ho1 ho2
    have hline := draw_line_eq_of_accept 100 100 (1, 1) (4, 3) (1, 1) (4, 3) hacc
    have ht1 : rustTrunc (1 : ℚ) = 1 := by
      unfold rustTrunc
      rw [if_pos (by norm_num), show (1 : ℚ) = ((1 : ℤ) : ℚ) by norm_num, Int.floor_intCast]
    have ht4 : rustTrunc (4 : ℚ) = 4 := by
      unfold rustTrunc
      rw [if_pos (by norm_num), show (4 : ℚ) = ((4 : ℤ) : ℚ) by norm_num, Int.floor_intCast]
    have ht3 : rustTrunc (3 : ℚ) = 3 := by
      unfold rustTrunc
      rw [if_pos (by norm_num), show (3 : ℚ) = ((3 : ℤ) : ℚ) by norm_num, Int.floor_intCast]
    have hmem : ((1 : ℤ), (1 : ℤ)) ∈ draw_line 100 100 (1, 1) (4, 3) := by
      rw [hline, ht1, ht4, ht3]
      rw [show draw_line_without_clip 1 1 4 3 = [(1, 1), (2, 2), (3, 2)] from by decide]
      simp
    exact pixel_writes_in_bounds.2 100 100 (1, 1) (4, 3) (1, 1) hmem
